import Mathlib

/-
Verification of the acquisition-orchestration core of sardana
(src/sardana/pool/poolacquisition.py) against its natural-language
specification.  The Python source is shallowly embedded: pure helpers become
Lean functions, the controller-call sequencing of the start actions becomes a
trace of explicit controller calls together with an optional raised error,
and the trigger-event dispatch logic becomes a step function on an explicit
coordinator state.
-/

namespace Sardana

/-! ## Basic value model

Python floats appearing in synchronization descriptions, master values and
raw channel readings are modelled as rationals; the software acquisition
loop's single-element wrapping of a raw reading is then a `List ℚ` payload. -/

/-- Association-list lookup, mirroring a Python dict lookup (`d[k]`), where
the first binding of a key wins.  The embedding only applies it to key lists
without duplicates, where it agrees with the Python dict. -/
def alookup {κ β : Type} [DecidableEq κ] : List (κ × β) → κ → Option β
  | [], _ => none
  | (k, b) :: rest, key => if k = key then some b else alookup rest key

/-- Python `list.remove(a)`: drops the first occurrence of `a`, and answers
`none` (a `ValueError` in Python) when `a` is absent. -/
def pyRemove {α : Type} [DecidableEq α] : List α → α → Option (List α)
  | [], _ => none
  | x :: xs, a =>
      if x = a then some xs
      else
        match pyRemove xs a with
        | none => none
        | some l => some (x :: l)

/-! ## ConfigSplitter: `extract_integ_time`

`extract_integ_time(synchronization)` reads the `Active`/`Time` entry of each
group.  Its docstring promises a scalar for a single group and a list of
times otherwise.  In the source, the accumulator `integ_time` is only
assigned in the single-group branch; the multi-group branch executes
`integ_time += [active_time] * repeats` on the unassigned local, which raises
`UnboundLocalError` in Python.  The embedding makes the unassigned local
explicit as an `Option` accumulator. -/

/-- One synchronization group: `{Active: {Time: activeTime}, Repeats: repeats}`. -/
structure SynchGroup where
  activeTime : ℚ
  repeats : Nat
deriving DecidableEq, Repr

inductive SynchError where
  | unboundLocal
deriving DecidableEq, Repr

/-- Result type of `extract_integ_time`: a scalar float or a list of floats. -/
inductive IntegTime where
  | scalar (t : ℚ)
  | seq (ts : List ℚ)
deriving DecidableEq, Repr

/-- The `for group in synchronization: integ_time += [active_time] * repeats`
loop.  The accumulator starts out unbound (`none`); reading it then is an
`UnboundLocalError`. -/
def extract_integ_time_loop :
    Option (List ℚ) → List SynchGroup → Except SynchError (Option (List ℚ))
  | acc, [] => .ok acc
  | none, _ :: _ => .error .unboundLocal
  | some ts, g :: gs =>
      extract_integ_time_loop (some (ts ++ List.replicate g.repeats g.activeTime)) gs

/-- Embedding of `extract_integ_time` from poolacquisition.py.  The single-group branch
returns the scalar active time; every other input runs the accumulating loop
on the unassigned local and finally returns it (another unbound read when the
input is empty). -/
def extract_integ_time : List SynchGroup → Except SynchError IntegTime
  | [g] => .ok (.scalar g.activeTime)
  | gs =>
      match extract_integ_time_loop none gs with
      | .error e => .error e
      | .ok none => .error .unboundLocal
      | .ok (some ts) => .ok (.seq ts)

/-- C1: `extract_integ_time` on a single group `{Active: {Time: 2.0}}` returns
the scalar `2.0` as claimed, but on the two groups
`{Active: {Time: 1.0}, Repeats: 3}` and `{Active: {Time: 2.0}, Repeats: 2}`
the code raises `UnboundLocalError` instead of returning
`[1.0, 1.0, 1.0, 2.0, 2.0]`: the accumulator `integ_time` is never
initialized before the `+=` in the multi-group branch, contradicting the
function's own docstring. -/
theorem C1_extract_integ_time_eval :
    extract_integ_time [⟨2, 1⟩] = .ok (.scalar 2) ∧
    extract_integ_time [⟨1, 3⟩, ⟨2, 2⟩] = .error .unboundLocal := by
  constructor <;> rfl

/-! ## Data model for the start sequencing

Controllers and elements are identified by numeric ids.  The measurement
configuration is the nested mapping described by the schema: controller →
{channels, timer, monitor}, plus the top-level timer/monitor selection.
Python dicts become association lists in configuration order. -/

/-- The element types the module discriminates on. -/
inductive ElementType where
  | CTExpChannel
  | ZeroDExpChannel
  | OneDExpChannel
  | TriggerGate
deriving DecidableEq, Repr

/-- A pool element (an acquirable channel): its id, its controller axis and
the id of its owning controller (`element.controller`). -/
structure PElem where
  id : Nat
  axis : Nat
  ctrl : Nat
deriving DecidableEq, Repr

/-- Per-channel info from the configuration (the `enabled` flag is the only
field the start sequencing reads). -/
structure ChanInfo where
  enabled : Bool
deriving DecidableEq, Repr

/-- A trigger/gate element; `is_software` is the `is_software_tg` predicate. -/
structure TGElem where
  id : Nat
  is_software : Bool
deriving DecidableEq, Repr

/-- A pool controller.  `ctrl_type0` is `get_ctrl_types()[0]` (every
controller exposes at least one type); `is_timerable` is the
`ctrl.is_timerable()` predicate. -/
structure PoolCtrl where
  id : Nat
  ctrl_type0 : ElementType
  is_timerable : Bool
deriving DecidableEq, Repr

/-- Per-controller configuration entry: channels (element → info, in dict
order), the controller's timer and monitor channels, and the optional
trigger element assigned to the controller. -/
structure CtrlInfo where
  channels : List (PElem × ChanInfo)
  timer : PElem
  monitor : PElem
  trigger_element : Option TGElem
deriving DecidableEq, Repr

/-- A measurement-group configuration as consumed by `start_action`:
controllers plus the top-level master channel selections. -/
structure MGConfig where
  controllers : List (PoolCtrl × CtrlInfo)
  timer : PElem
  monitor : PElem
deriving DecidableEq, Repr

/-- The master value passed to every `...One` controller call: the
integration time (scalar or per-group list) in timer mode, or the negated
monitor count in monitor mode (negative encodes count mode). -/
inductive MasterValue where
  | time (v : IntegTime)
  | counts (n : Int)
deriving DecidableEq, Repr

/-! ## The controller-call trace -/

/-- One call to a controller, as issued by the start sequencing.  `PreLoadOne`
and `LoadOne` record the effective invocation (with or without the
repetitions argument, the falling back on `TypeError` is resolved by the
controller's capability below). -/
inductive CtrlCall where
  | SetCtrlPar (ctrl : Nat) (repetitions : Int)
  | PreLoadAll (ctrl : Nat)
  | PreLoadOne (ctrl : Nat) (axis : Nat) (value : MasterValue)
  | LoadOne (ctrl : Nat) (axis : Nat) (value : MasterValue)
  | LoadAll (ctrl : Nat)
  | PreStartAll (ctrl : Nat)
  | PreStartOne (ctrl : Nat) (axis : Nat) (value : MasterValue)
  | StartOne (ctrl : Nat) (axis : Nat) (value : MasterValue)
  | StartAll (ctrl : Nat)
deriving DecidableEq, Repr

/-- The exceptions the start sequencing can raise.  `configError` is the
"must give integration time or monitor counts" validation failure;
`valueError` is Python's `list.remove` on an absent element; `keyError` is a
missing dict key; the two `...False` errors are the protocol failures raised
when `PreLoadOne`/`PreStartOne` answers falsy. -/
inductive StartError where
  | configError
  | valueError
  | keyError
  | preLoadOneFalse (ctrl : Nat) (axis : Nat)
  | preStartOneFalse (ctrl : Nat) (axis : Nat)
deriving DecidableEq, Repr

/-- The observable behavior of one controller plugin: the boolean answers of
`PreLoadOne` (which receives the repetitions argument only when the plugin's
signature accepts it, mirroring the `TypeError` fallback in the source) and
of `PreStartOne`. -/
structure CtrlBehavior where
  acceptsRepetitions : Bool
  preLoadOne : Nat → MasterValue → Option Int → Bool
  preStartOne : Nat → MasterValue → Bool

/-- The keyword arguments of `start_action` that drive the sequencing. -/
structure StartKwargs where
  integ_time : Option IntegTime
  monitor_count : Option Int
  repetitions : Option Int
deriving DecidableEq, Repr

/-- The master selector: the `'timer'` or `'monitor'` configuration key. -/
inductive MasterKey where
  | timer
  | monitor
deriving DecidableEq, Repr

/-- Validation at the top of `start_action`: exactly one of integration time
and monitor count must be supplied. -/
def validate (kw : StartKwargs) : Option StartError :=
  match kw.integ_time, kw.monitor_count with
  | none, none => some .configError
  | some _, some _ => some .configError
  | _, _ => none

/-- The master key selected after validation (with both supplied the second
`if` in the source would win, hence monitor takes precedence). -/
def masterKeyOf (kw : StartKwargs) : MasterKey :=
  match kw.monitor_count with
  | some _ => .monitor
  | none => .timer

/-- The master value selected after validation: the integration time, or the
negated monitor count. -/
def masterValueOf (kw : StartKwargs) : MasterValue :=
  match kw.monitor_count with
  | some n => .counts (-n)
  | none =>
      match kw.integ_time with
      | some it => .time it
      | none => .time (.scalar 0)

/-- Selection `pool_ctrl_data[master_key]`: the controller-level timer or monitor. -/
def selectMaster : MasterKey → CtrlInfo → PElem
  | .timer, info => info.timer
  | .monitor, info => info.monitor

/-- Selection `cfg[master_key]`: the configuration-level master channel. -/
def cfgMaster : MasterKey → MGConfig → PElem
  | .timer, cfg => cfg.timer
  | .monitor, cfg => cfg.monitor

/-- Reordering `pool_ctrls.remove(master_ctrl)` followed by re-appending: finds the
first controller entry with the master controller's id, returning it and the
remaining list; `none` is Python's `ValueError`. -/
def removeFirstCtrl :
    List (PoolCtrl × CtrlInfo) → Nat → Option ((PoolCtrl × CtrlInfo) × List (PoolCtrl × CtrlInfo))
  | [], _ => none
  | p :: ps, cid =>
      if p.1.id = cid then some (p, ps)
      else
        match removeFirstCtrl ps cid with
        | none => none
        | some (q, rest) => some (q, p :: rest)

/-! ## The load phase (`PreLoadAll`, `PreLoadOne`, `LoadOne`, `LoadAll`) -/

/-- The load block of one controller, producing its calls and the error
raised when `PreLoadOne` answers falsy. -/
def loadOneCtrl (beh : Nat → CtrlBehavior) (mk : MasterKey) (mv : MasterValue)
    (reps : Option Int) (p : PoolCtrl × CtrlInfo) : List CtrlCall × Option StartError :=
  let cid := p.1.id
  let a := (selectMaster mk p.2).axis
  let b := beh cid
  let res := b.preLoadOne a mv (if b.acceptsRepetitions then reps else none)
  if res then
    ([.PreLoadAll cid, .PreLoadOne cid a mv, .LoadOne cid a mv, .LoadAll cid], none)
  else
    ([.PreLoadAll cid, .PreLoadOne cid a mv], some (.preLoadOneFalse cid a))

/-- A `for pool_ctrl in pool_ctrls` loop whose body issues controller calls
and may raise: the calls accumulate and the first raised error aborts the
loop.  All three per-controller phases of the module share this shape. -/
def phaseFold {α : Type} (f : α → List CtrlCall × Option StartError) :
    List α → List CtrlCall × Option StartError
  | [] => ([], none)
  | x :: xs =>
      match f x with
      | (tr, some e) => (tr, some e)
      | (tr, none) =>
          let rest := phaseFold f xs
          (tr ++ rest.1, rest.2)

/-- The load phase over the ordered controller list, stopping at the first
raised error. -/
def loadPhase (beh : Nat → CtrlBehavior) (mk : MasterKey) (mv : MasterValue)
    (reps : Option Int) : List (PoolCtrl × CtrlInfo) → List CtrlCall × Option StartError :=
  phaseFold (loadOneCtrl beh mk mv reps)

/-! ## The start phase (`PreStartOne`, `StartOne`) -/

/-- The `PreStartOne`/`StartOne` block for one element of a controller:
looked up in the channel dict, skipped when disabled, raising when
`PreStartOne` answers falsy. -/
def startElems (b : CtrlBehavior) (cid : Nat) (mv : MasterValue)
    (chans : List (PElem × ChanInfo)) : List PElem → List CtrlCall × Option StartError
  | [] => ([], none)
  | e :: es =>
      match alookup chans e with
      | none => ([], some .keyError)
      | some ci =>
          if ci.enabled then
            if b.preStartOne e.axis mv then
              let rest := startElems b cid mv chans es
              (.PreStartOne cid e.axis mv :: .StartOne cid e.axis mv :: rest.1, rest.2)
            else ([.PreStartOne cid e.axis mv], some (.preStartOneFalse cid e.axis))
          else startElems b cid mv chans es

/-- The start block of one controller in `PoolAcquisitionBase.start_action`:
the channel keys are reordered so the controller's timer/monitor channel is
started last (`elements.remove(timer_monitor); elements.append(...)`). -/
def startCtrl (beh : Nat → CtrlBehavior) (mk : MasterKey) (mv : MasterValue)
    (p : PoolCtrl × CtrlInfo) : List CtrlCall × Option StartError :=
  let tm := selectMaster mk p.2
  match pyRemove (p.2.channels.map Prod.fst) tm with
  | none => ([], some .valueError)
  | some keys => startElems (beh p.1.id) p.1.id mv p.2.channels (keys ++ [tm])

/-- The start phase over the ordered controller list, stopping at the first
raised error. -/
def startPhase (beh : Nat → CtrlBehavior) (mk : MasterKey) (mv : MasterValue) :
    List (PoolCtrl × CtrlInfo) → List CtrlCall × Option StartError :=
  phaseFold (startCtrl beh mk mv)

/-- Steps 4–8 of the sequencing, given the reordered controller list: load
phase, `PreStartAll` on all controllers, start phase, `StartAll` on all
controllers.  (The `set_state(Moving)` propagation between the start phase
and `StartAll` touches no controller.) -/
def runPhases (beh : Nat → CtrlBehavior) (mk : MasterKey) (mv : MasterValue)
    (reps : Option Int) (ordered : List (PoolCtrl × CtrlInfo)) :
    List CtrlCall × Option StartError :=
  match loadPhase beh mk mv reps ordered with
  | (tr1, some e) => (tr1, some e)
  | (tr1, none) =>
      let tr2 := ordered.map (fun p => CtrlCall.PreStartAll p.1.id)
      match startPhase beh mk mv ordered with
      | (tr3, some e) => (tr1 ++ (tr2 ++ tr3), some e)
      | (tr3, none) =>
          (tr1 ++ (tr2 ++ (tr3 ++ ordered.map (fun p => CtrlCall.StartAll p.1.id))), none)

/-- Embedding of `PoolAcquisitionBase.start_action`: validate the master selection,
resolve the master controller, reorder the timerable controllers so the
master controller comes last, then run the load/start phases.  The result is
the list of controller calls issued, paired with the error raised (if any).
Bookkeeping that issues no controller call (`_pool_ctrl_dict_loop`, the
channel map, the `'__tango__'` pop) is omitted. -/
def start_action (beh : Nat → CtrlBehavior) (kw : StartKwargs) (cfg : MGConfig) :
    List CtrlCall × Option StartError :=
  match validate kw with
  | some e => ([], some e)
  | none =>
      let mk := masterKeyOf kw
      match removeFirstCtrl (cfg.controllers.filter (fun p => p.1.is_timerable))
          (cfgMaster mk cfg).ctrl with
      | none => ([], some .valueError)
      | some (mp, rest) => runPhases beh mk (masterValueOf kw) kw.repetitions (rest ++ [mp])

/-! ## The hardware-continuous variant (`PoolContHWAcquisition.start_action`)

Same validation and master-controller reordering, but: a mandatory
`repetitions` entry pushed to every controller via `SetCtrlPar` before
loading, two-argument `PreLoadOne`/`LoadOne`, and — crucially — the
per-controller channel iteration is in plain configuration order, without
moving the timer/monitor channel to the end. -/

/-- The start block of one controller in `PoolContHWAcquisition.start_action`:
plain iteration over the channel keys, no master-channel reordering. -/
def contStartCtrl (beh : Nat → CtrlBehavior) (mv : MasterValue)
    (p : PoolCtrl × CtrlInfo) : List CtrlCall × Option StartError :=
  startElems (beh p.1.id) p.1.id mv p.2.channels (p.2.channels.map Prod.fst)

/-- The start phase of the hardware-continuous variant. -/
def contStartPhase (beh : Nat → CtrlBehavior) (mv : MasterValue) :
    List (PoolCtrl × CtrlInfo) → List CtrlCall × Option StartError :=
  phaseFold (contStartCtrl beh mv)

/-- Embedding of `PoolContHWAcquisition.start_action`; here `self.conf` access of the repetitions raises
`KeyError` when absent; `PreLoadOne` is called with two arguments, so the
behavior receives no repetitions argument. -/
def contHW_start_action (beh : Nat → CtrlBehavior) (kw : StartKwargs) (cfg : MGConfig) :
    List CtrlCall × Option StartError :=
  match validate kw with
  | some e => ([], some e)
  | none =>
      let mk := masterKeyOf kw
      let mv := masterValueOf kw
      match removeFirstCtrl (cfg.controllers.filter (fun p => p.1.is_timerable))
          (cfgMaster mk cfg).ctrl with
      | none => ([], some .valueError)
      | some (mp, rest) =>
          let ordered := rest ++ [mp]
          match kw.repetitions with
          | none => ([], some .keyError)
          | some reps =>
              let tr0 := ordered.map (fun p => CtrlCall.SetCtrlPar p.1.id reps)
              match loadPhase beh mk mv none ordered with
              | (tr1, some e) => (tr0 ++ tr1, some e)
              | (tr1, none) =>
                  let tr2 := ordered.map (fun p => CtrlCall.PreStartAll p.1.id)
                  match contStartPhase beh mv ordered with
                  | (tr3, some e) => (tr0 ++ (tr1 ++ (tr2 ++ tr3)), some e)
                  | (tr3, none) =>
                      (tr0 ++ (tr1 ++ (tr2 ++ (tr3 ++
                        ordered.map (fun p => CtrlCall.StartAll p.1.id)))), none)

/-! ## Ordering predicates on traces -/

/-- The kind of a controller call, forgetting its arguments. -/
inductive CallKind where
  | setCtrlPar
  | preLoadAll
  | preLoadOne
  | loadOne
  | loadAll
  | preStartAll
  | preStartOne
  | startOne
  | startAll
deriving DecidableEq, Repr, BEq

def kindOf : CtrlCall → CallKind
  | .SetCtrlPar _ _ => .setCtrlPar
  | .PreLoadAll _ => .preLoadAll
  | .PreLoadOne _ _ _ => .preLoadOne
  | .LoadOne _ _ _ => .loadOne
  | .LoadAll _ => .loadAll
  | .PreStartAll _ => .preStartAll
  | .PreStartOne _ _ _ => .preStartOne
  | .StartOne _ _ _ => .startOne
  | .StartAll _ => .startAll

/-- The controller a call is addressed to. -/
def ctrlOfCall : CtrlCall → Nat
  | .SetCtrlPar c _ => c
  | .PreLoadAll c => c
  | .PreLoadOne c _ _ => c
  | .LoadOne c _ _ => c
  | .LoadAll c => c
  | .PreStartAll c => c
  | .PreStartOne c _ _ => c
  | .StartOne c _ _ => c
  | .StartAll c => c

/-- The axis argument of a per-element call (0 for the `...All` calls, which
carry no axis). -/
def axisOfCall : CtrlCall → Nat
  | .PreLoadOne _ a _ => a
  | .LoadOne _ a _ => a
  | .PreStartOne _ a _ => a
  | .StartOne _ a _ => a
  | _ => 0

/-- Predicate `allBefore p q tr` holds when every call satisfying `p` occurs strictly
before every call satisfying `q` in the trace: after any `q`-call no `p`-call
follows. -/
def allBefore {α : Type} (p q : α → Bool) : List α → Bool
  | [] => true
  | c :: cs => (if q c then cs.all (fun d => !(p d)) else true) && allBefore p q cs

/-- Is the call one of the per-element start calls? -/
def isStartKindCall (c : CtrlCall) : Bool :=
  kindOf c == .preStartOne || kindOf c == .startOne

/-- Within controller `cid`, all `PreStartOne`/`StartOne` calls for sibling
axes occur before all such calls for the master (timer/monitor) axis. -/
def masterAfterSiblings (cid mAxis : Nat) (tr : List CtrlCall) : Bool :=
  allBefore
    (fun c => isStartKindCall c && (ctrlOfCall c == cid) && !(axisOfCall c == mAxis))
    (fun c => isStartKindCall c && (ctrlOfCall c == cid) && (axisOfCall c == mAxis)) tr

/-- All `k`-kind calls addressed to controllers other than `mid` occur before
all `k`-kind calls addressed to `mid`. -/
def masterCtrlLastForKind (k : CallKind) (mid : Nat) (tr : List CtrlCall) : Bool :=
  allBefore
    (fun c => (kindOf c == k) && !(ctrlOfCall c == mid))
    (fun c => (kindOf c == k) && (ctrlOfCall c == mid)) tr

/-! ## ConfigSplitter: `split_MGConfigurations`

Partitions the controller mapping by trigger modality: ZeroD-typed
controllers to the ZeroD subset, the rest to the software subset when the
assigned trigger element is absent or software-implemented, otherwise to the
hardware subset. -/

/-- The three output subsets. -/
inductive Route where
  | hw
  | sw
  | zd
deriving DecidableEq, Repr, BEq

/-- The routing decision the loop body of `split_MGConfigurations` makes for
one controller entry. -/
def routeOf (p : PoolCtrl × CtrlInfo) : Route :=
  if p.1.ctrl_type0 = .ZeroDExpChannel then .zd
  else
    match p.2.trigger_element with
    | none => .sw
    | some tg => if tg.is_software then .sw else .hw

/-- The `for ctrl, ctrl_info in ctrls_in.items()` loop: each entry is
appended to exactly one of the three output mappings, preserving iteration
order. -/
def split_ctrls : List (PoolCtrl × CtrlInfo) →
    List (PoolCtrl × CtrlInfo) × List (PoolCtrl × CtrlInfo) × List (PoolCtrl × CtrlInfo)
  | [] => ([], [], [])
  | (c, info) :: rest =>
      let r := split_ctrls rest
      if c.ctrl_type0 = .ZeroDExpChannel then (r.1, r.2.1, (c, info) :: r.2.2)
      else
        match info.trigger_element with
        | none => (r.1, (c, info) :: r.2.1, r.2.2)
        | some tg =>
            if tg.is_software then (r.1, (c, info) :: r.2.1, r.2.2)
            else ((c, info) :: r.1, r.2.1, r.2.2)

/-- A split output configuration: its controllers, and the timer/monitor
taken from the first member controller when the subset is non-empty (the
source's documented arbitrary choice). -/
structure MGCfgOut where
  controllers : List (PoolCtrl × CtrlInfo)
  timer : Option PElem
  monitor : Option PElem
deriving DecidableEq, Repr

/-- Embedding of `split_MGConfigurations`, returning `(hw, sw, 0d)` configurations.  Only
the software and hardware outputs receive a timer/monitor selection. -/
def split_MGConfigurations (cfg : MGConfig) : MGCfgOut × MGCfgOut × MGCfgOut :=
  let r := split_ctrls cfg.controllers
  ( { controllers := r.1
      timer := r.1.head?.map (fun p => p.2.timer)
      monitor := r.1.head?.map (fun p => p.2.monitor) },
    { controllers := r.2.1
      timer := r.2.1.head?.map (fun p => p.2.timer)
      monitor := r.2.1.head?.map (fun p => p.2.monitor) },
    { controllers := r.2.2, timer := none, monitor := none } )

/-! ## BusyGate / AcquisitionCoordinator event dispatch

The coordinator's mutable state relevant to `event_received`: whether a
software / ZeroD configuration is cached, and the two busy latches.  The
trigger callback and the worker-pool completion callbacks become steps of a
small transition system; a step returns the new state and the list of
cycles dispatched to the worker pool during it. -/

structure AcqState where
  sw_config : Bool
  zd_config : Bool
  sw_busy : Bool
  zd_busy : Bool
deriving DecidableEq, Repr

/-- Callback `set_sw_acq_busy`: sets or clears the software-acquisition busy event. -/
def set_sw_acq_busy (s : AcqState) (busy : Bool) : AcqState :=
  if busy then { s with sw_busy := true } else { s with sw_busy := false }

/-- Callback `set_0d_acq_busy`: sets or clears the ZeroD-acquisition busy event. -/
def set_0d_acq_busy (s : AcqState) (busy : Bool) : AcqState :=
  if busy then { s with zd_busy := true } else { s with zd_busy := false }

inductive TGEventType where
  | Active
  | Passive
deriving DecidableEq, Repr

/-- What `event_received` hands to the outside world: worker-pool
submissions of the two cycle kinds (tagged with the event id that becomes
the value index), and the stop request to the ZeroD action. -/
inductive Dispatch where
  | run_ct_continuous (idx : Int)
  | run_zerod_acquisition (idx : Int)
  | stop_zerod
deriving DecidableEq, Repr

/-- Embedding of `PoolAcquisition.event_received`.  On `Active`: the software branch runs
first and its busy skip executes `return`, leaving the ZeroD branch
unevaluated; otherwise each cached, idle sub-acquisition is marked busy and
its cycle submitted.  On `Passive`: a busy ZeroD acquisition is asked to
stop. -/
def event_received (s : AcqState) (event_type : TGEventType) (event_id : Int) :
    AcqState × List Dispatch :=
  match event_type with
  | .Active =>
      if s.sw_config then
        if s.sw_busy then (s, [])
        else
          let s1 := set_sw_acq_busy s true
          let d1 := [Dispatch.run_ct_continuous event_id]
          if s1.zd_config then
            if s1.zd_busy then (s1, d1)
            else (set_0d_acq_busy s1 true, d1 ++ [.run_zerod_acquisition event_id])
          else (s1, d1)
      else
        if s.zd_config then
          if s.zd_busy then (s, [])
          else (set_0d_acq_busy s true, [.run_zerod_acquisition event_id])
        else (s, [])
  | .Passive =>
      if s.zd_config && s.zd_busy then (s, [.stop_zerod]) else (s, [])

/-- The outcome of running a Python callable: a returned value, or a raised
exception (identified by a number). -/
inductive PyOutcome (α : Type) where
  | ok (a : α)
  | raised (exc : Nat)
deriving DecidableEq, Repr

/-- The `try: run(...) except: log finally: return False` shape of the two
dispatch wrappers: the bare `except` swallows any exception of the body (the
handler only logs), and the `return` inside `finally` replaces whatever
control flow is in progress — normal completion or an in-flight exception —
with a normal return of `ret`. -/
def tryExceptLogFinallyReturn (body : PyOutcome Unit) (ret : Bool) : PyOutcome Bool :=
  let afterExcept : PyOutcome Unit :=
    match body with
    | .ok u => .ok u
    | .raised _ => .ok ()
  match afterExcept with
  | .ok _ => .ok ret
  | .raised _ => .ok ret

/-- Embedding of `PoolAcquisition._run_ct_continuous`, as a function of the outcome of the
wrapped `self._sw_acq.run(...)`. -/
def _run_ct_continuous (run : PyOutcome Unit) : PyOutcome Bool :=
  tryExceptLogFinallyReturn run false

/-- Embedding of `PoolAcquisition._run_zerod_acquisition`, as a function of the outcome of
the wrapped `self._0d_acq.run(...)`. -/
def _run_zerod_acquisition (run : PyOutcome Unit) : PyOutcome Bool :=
  tryExceptLogFinallyReturn run false

/-- The worker pool invokes the registered completion callback
(`set_sw_acq_busy`) with the dispatched callable's boolean return value; a
callable that itself raised would yield no value to pass on. -/
def ctCompletion (s : AcqState) (run : PyOutcome Unit) : AcqState :=
  match _run_ct_continuous run with
  | .ok b => set_sw_acq_busy s b
  | .raised _ => s

/-- The completion callback of a dispatched ZeroD cycle (`set_0d_acq_busy`
applied to the wrapper's return value). -/
def zdCompletion (s : AcqState) (run : PyOutcome Unit) : AcqState :=
  match _run_zerod_acquisition run with
  | .ok b => set_0d_acq_busy s b
  | .raised _ => s

/-- The events the coordinator state reacts to: trigger callbacks from the
generator, and worker-pool completions of the two cycle kinds (carrying the
outcome of the wrapped run).  The source assumes a single event producer, so
steps interleave atomically. -/
inductive SysEv where
  | trig (t : TGEventType) (id : Int)
  | ctDone (run : PyOutcome Unit)
  | zdDone (run : PyOutcome Unit)
deriving DecidableEq, Repr

def acq_step (s : AcqState) : SysEv → AcqState × List Dispatch
  | .trig t id => event_received s t id
  | .ctDone r => (ctCompletion s r, [])
  | .zdDone r => (zdCompletion s r, [])

/-- The coordinator state after consuming a sequence of events. -/
def acq_runState (s : AcqState) : List SysEv → AcqState
  | [] => s
  | e :: es => acq_runState (acq_step s e).1 es

/-! ## Software acquisition loop: final convergence publication

`PoolAcquisitionSoftware.action_loop`, after its polling loop exits, walks
the state map: per acquirable it first sets the raw state without
propagation, then — if a value was read for it — wraps the value and the
trigger-supplied index (stored by `start_action` from the `idx` kwarg) into
one-element lists and publishes with full propagation, then clears the
operation and publishes the final state.  States are `(elementId, rawState)`
pairs, values `(elementId, rawReading)` pairs. -/

/-- One call into the element/attribute publication layer. -/
inductive PubEvent where
  | set_state_info_raw (elem : Nat)
  | put_value (elem : Nat) (value : List ℚ) (idx : List Int) (propagate : Nat)
  | clear_operation (elem : Nat)
  | set_state_info_final (elem : Nat) (propagate : Nat)
deriving DecidableEq, Repr

/-- The `for acquirable, state_info in states.items()` convergence loop of
`PoolAcquisitionSoftware.action_loop`. -/
def sw_convergence (index : Int) (values : List (Nat × ℚ)) :
    List (Nat × Nat) → List PubEvent
  | [] => []
  | (acq, _) :: rest =>
      .set_state_info_raw acq ::
        ((match alookup values acq with
          | some v => [PubEvent.put_value acq [v] [index] 2]
          | none => []) ++
         (.clear_operation acq :: .set_state_info_final acq 2 ::
           sw_convergence index values rest))

/-! ## Lemmas about the ordering predicate -/

theorem allBefore_of_no_q {α : Type} {p q : α → Bool} {l : List α}
    (h : ∀ c ∈ l, q c = false) : allBefore p q l = true := by
  induction l with
  | nil => rfl
  | cons c cs ih =>
      simp only [allBefore, h c (List.mem_cons_self c cs), Bool.false_eq_true, if_neg,
        Bool.true_and]
      exact ih (fun d hd => h d (List.mem_cons_of_mem c hd))

theorem allBefore_of_no_p {α : Type} {p q : α → Bool} {l : List α}
    (h : ∀ c ∈ l, p c = false) : allBefore p q l = true := by
  induction l with
  | nil => rfl
  | cons c cs ih =>
      have hall : cs.all (fun d => !(p d)) = true := by
        rw [List.all_eq_true]
        intro d hd
        simp [h d (List.mem_cons_of_mem c hd)]
      have hrest := ih (fun d hd => h d (List.mem_cons_of_mem c hd))
      simp only [allBefore, hrest, Bool.and_true]
      by_cases hq : q c = true
      · simp [hq, hall]
      · simp [Bool.eq_false_iff.mpr hq]

theorem allBefore_append {α : Type} {p q : α → Bool} {l1 l2 : List α}
    (h1 : ∀ c ∈ l1, q c = false) (h2 : ∀ c ∈ l2, p c = false) :
    allBefore p q (l1 ++ l2) = true := by
  induction l1 with
  | nil => simpa using allBefore_of_no_p h2
  | cons c cs ih =>
      simp only [List.cons_append, allBefore, h1 c (List.mem_cons_self c cs),
        Bool.false_eq_true, if_neg, Bool.true_and]
      exact ih (fun d hd => h1 d (List.mem_cons_of_mem c hd))

/-! ## Lemmas about the phase fold -/

theorem phaseFold_mem {α : Type} {f : α → List CtrlCall × Option StartError}
    {l : List α} {c : CtrlCall} (h : c ∈ (phaseFold f l).1) :
    ∃ x ∈ l, c ∈ (f x).1 := by
  induction l with
  | nil => simp [phaseFold] at h
  | cons x xs ih =>
      rcases hx : f x with ⟨tr, err⟩
      cases err with
      | some e =>
          rw [phaseFold, hx] at h
          exact ⟨x, List.mem_cons_self x xs, by rw [hx]; exact h⟩
      | none =>
          rw [phaseFold, hx] at h
          simp only [List.mem_append] at h
          rcases h with h | h
          · exact ⟨x, List.mem_cons_self x xs, by rw [hx]; exact h⟩
          · obtain ⟨y, hy, hc⟩ := ih h
            exact ⟨y, List.mem_cons_of_mem x hy, hc⟩

theorem phaseFold_err {α : Type} {f : α → List CtrlCall × Option StartError}
    {l : List α} {e : StartError} (h : (phaseFold f l).2 = some e) :
    ∃ x ∈ l, (f x).2 = some e := by
  induction l with
  | nil => simp [phaseFold] at h
  | cons x xs ih =>
      rcases hx : f x with ⟨tr, err⟩
      cases err with
      | some e0 =>
          rw [phaseFold, hx] at h
          exact ⟨x, List.mem_cons_self x xs, by rw [hx]; exact h⟩
      | none =>
          rw [phaseFold, hx] at h
          obtain ⟨y, hy, he⟩ := ih h
          exact ⟨y, List.mem_cons_of_mem x hy, he⟩

theorem phaseFold_ok {α : Type} {f : α → List CtrlCall × Option StartError}
    {l : List α} (h : (phaseFold f l).2 = none) :
    (phaseFold f l).1 = (l.map (fun x => (f x).1)).flatten ∧
      ∀ x ∈ l, (f x).2 = none := by
  induction l with
  | nil => exact ⟨rfl, by simp⟩
  | cons x xs ih =>
      rcases hx : f x with ⟨tr, err⟩
      cases err with
      | some e0 => rw [phaseFold, hx] at h ⊢; simp at h
      | none =>
          rw [phaseFold, hx] at h ⊢
          obtain ⟨htr, hall⟩ := ih h
          refine ⟨by simp [htr, hx], ?_⟩
          intro y hy
          rcases List.mem_cons.mp hy with rfl | hy
          · rw [hx]
          · exact hall y hy

/-- A raised `q`-free trace of every item gives a probe lemma: if a probe
call appears in the fold's trace and every item that emits it must raise a
designated error, the fold raises that error. -/
theorem phaseFold_probe {α : Type} {f : α → List CtrlCall × Option StartError}
    {l : List α} {probe : CtrlCall} {e0 : StartError}
    (h : ∀ x ∈ l, probe ∈ (f x).1 → (f x).2 = some e0)
    (hm : probe ∈ (phaseFold f l).1) : (phaseFold f l).2 = some e0 := by
  induction l with
  | nil => simp [phaseFold] at hm
  | cons x xs ih =>
      rcases hx : f x with ⟨tr, err⟩
      cases err with
      | some e1 =>
          rw [phaseFold, hx] at hm ⊢
          have := h x (List.mem_cons_self x xs) (by rw [hx]; exact hm)
          rw [hx] at this
          exact this
      | none =>
          rw [phaseFold, hx] at hm ⊢
          rcases List.mem_append.mp hm with hm1 | hm2
          · have := h x (List.mem_cons_self x xs) (by rw [hx]; exact hm1)
            rw [hx] at this
            simp at this
          · exact ih (fun y hy => h y (List.mem_cons_of_mem x hy)) hm2

/-! ## Lemmas about `pyRemove` and `removeFirstCtrl` -/

theorem pyRemove_subset {α : Type} [DecidableEq α] {l l0 : List α} {a : α}
    (h : pyRemove l a = some l0) : ∀ x ∈ l0, x ∈ l := by
  induction l generalizing l0 with
  | nil => simp [pyRemove] at h
  | cons y ys ih =>
      by_cases hy : y = a
      · rw [pyRemove, if_pos hy] at h
        cases h
        intro x hx
        exact List.mem_cons_of_mem y hx
      · rw [pyRemove, if_neg hy] at h
        rcases hrec : pyRemove ys a with _ | l1
        · rw [hrec] at h; simp at h
        · rw [hrec] at h
          simp only [Option.some_inj] at h
          subst h
          intro x hx
          rcases List.mem_cons.mp hx with rfl | hx
          · exact List.mem_cons_self x ys
          · exact List.mem_cons_of_mem y (ih hrec x hx)

theorem pyRemove_mem {α : Type} [DecidableEq α] {l l0 : List α} {a : α}
    (h : pyRemove l a = some l0) : a ∈ l := by
  induction l generalizing l0 with
  | nil => simp [pyRemove] at h
  | cons y ys ih =>
      by_cases hy : y = a
      · subst hy; exact List.mem_cons_self y ys
      · rw [pyRemove, if_neg hy] at h
        rcases hrec : pyRemove ys a with _ | l1
        · rw [hrec] at h; simp at h
        · exact List.mem_cons_of_mem y (ih hrec)

theorem pyRemove_not_mem {α : Type} [DecidableEq α] {l l0 : List α} {a : α}
    (hnd : l.Nodup) (h : pyRemove l a = some l0) : a ∉ l0 := by
  induction l generalizing l0 with
  | nil => simp [pyRemove] at h
  | cons y ys ih =>
      by_cases hy : y = a
      · rw [pyRemove, if_pos hy] at h
        cases h
        subst hy
        exact (List.nodup_cons.mp hnd).1
      · rw [pyRemove, if_neg hy] at h
        rcases hrec : pyRemove ys a with _ | l1
        · rw [hrec] at h; simp at h
        · rw [hrec] at h
          simp only [Option.some_inj] at h
          subst h
          intro hmem
          rcases List.mem_cons.mp hmem with rfl | hmem
          · exact hy rfl
          · exact ih (List.nodup_cons.mp hnd).2 hrec hmem

theorem removeFirstCtrl_id {l : List (PoolCtrl × CtrlInfo)} {cid : Nat}
    {mp : PoolCtrl × CtrlInfo} {rest : List (PoolCtrl × CtrlInfo)}
    (h : removeFirstCtrl l cid = some (mp, rest)) : mp.1.id = cid := by
  induction l generalizing rest with
  | nil => simp [removeFirstCtrl] at h
  | cons p ps ih =>
      by_cases hp : p.1.id = cid
      · rw [removeFirstCtrl, if_pos hp] at h
        cases h
        exact hp
      · rw [removeFirstCtrl, if_neg hp] at h
        rcases hrec : removeFirstCtrl ps cid with _ | ⟨q, l1⟩
        · rw [hrec] at h; simp at h
        · rw [hrec] at h
          simp only [Option.some_inj, Prod.mk.injEq] at h
          obtain ⟨rfl, _⟩ := h
          exact ih hrec

theorem removeFirstCtrl_perm {l : List (PoolCtrl × CtrlInfo)} {cid : Nat}
    {mp : PoolCtrl × CtrlInfo} {rest : List (PoolCtrl × CtrlInfo)}
    (h : removeFirstCtrl l cid = some (mp, rest)) : List.Perm l (mp :: rest) := by
  induction l generalizing rest with
  | nil => simp [removeFirstCtrl] at h
  | cons p ps ih =>
      by_cases hp : p.1.id = cid
      · rw [removeFirstCtrl, if_pos hp] at h
        cases h
        exact List.Perm.refl _
      · rw [removeFirstCtrl, if_neg hp] at h
        rcases hrec : removeFirstCtrl ps cid with _ | ⟨q, l1⟩
        · rw [hrec] at h; simp at h
        · rw [hrec] at h
          simp only [Option.some_inj, Prod.mk.injEq] at h
          obtain ⟨rfl, rfl⟩ := h
          exact (List.Perm.cons p (ih hrec)).trans (List.Perm.swap _ _ _)

/-! ## Call-shape lemmas for the per-controller segments -/

theorem loadOneCtrl_mem {beh : Nat → CtrlBehavior} {mk : MasterKey} {mv : MasterValue}
    {reps : Option Int} {p : PoolCtrl × CtrlInfo} {c : CtrlCall}
    (h : c ∈ (loadOneCtrl beh mk mv reps p).1) :
    ctrlOfCall c = p.1.id ∧
      (kindOf c = .preLoadAll ∨ kindOf c = .preLoadOne ∨
        kindOf c = .loadOne ∨ kindOf c = .loadAll) := by
  by_cases hres : (beh p.1.id).preLoadOne (selectMaster mk p.2).axis mv
      (if (beh p.1.id).acceptsRepetitions then reps else none) = true
  · simp only [loadOneCtrl, hres, if_true, List.mem_cons, List.not_mem_nil, or_false] at h
    rcases h with rfl | rfl | rfl | rfl <;> exact ⟨rfl, by simp [kindOf]⟩
  · simp only [loadOneCtrl, hres, if_false, List.mem_cons, List.not_mem_nil, or_false,
      Bool.false_eq_true] at h
    rcases h with rfl | rfl <;> exact ⟨rfl, by simp [kindOf]⟩

theorem loadOneCtrl_err {beh : Nat → CtrlBehavior} {mk : MasterKey} {mv : MasterValue}
    {reps : Option Int} {p : PoolCtrl × CtrlInfo} {e : StartError}
    (h : (loadOneCtrl beh mk mv reps p).2 = some e) :
    e = .preLoadOneFalse p.1.id (selectMaster mk p.2).axis := by
  by_cases hres : (beh p.1.id).preLoadOne (selectMaster mk p.2).axis mv
      (if (beh p.1.id).acceptsRepetitions then reps else none) = true
  · simp [loadOneCtrl, hres] at h
  · simp [loadOneCtrl, hres] at h
    exact h.symm

/-- The calls one element contributes to the start phase: nothing when the
channel lookup fails or the channel is disabled, `PreStartOne` alone when
the protocol check fails, the pair otherwise. -/
def startElemCalls (b : CtrlBehavior) (cid : Nat) (mv : MasterValue)
    (chans : List (PElem × ChanInfo)) (e : PElem) : List CtrlCall :=
  match alookup chans e with
  | none => []
  | some ci =>
      if ci.enabled then
        if b.preStartOne e.axis mv then
          [.PreStartOne cid e.axis mv, .StartOne cid e.axis mv]
        else [.PreStartOne cid e.axis mv]
      else []

theorem startElemCalls_mem {b : CtrlBehavior} {cid : Nat} {mv : MasterValue}
    {chans : List (PElem × ChanInfo)} {e : PElem} {c : CtrlCall}
    (h : c ∈ startElemCalls b cid mv chans e) :
    c = .PreStartOne cid e.axis mv ∨ c = .StartOne cid e.axis mv := by
  rcases halo : alookup chans e with _ | ci
  · simp [startElemCalls, halo] at h
  · by_cases hen : ci.enabled = true
    · by_cases hres : b.preStartOne e.axis mv = true
      · simp only [startElemCalls, halo, hen, hres, if_true, List.mem_cons,
          List.not_mem_nil, or_false] at h
        exact h
      · simp only [startElemCalls, halo, hen, if_true, List.mem_cons, List.not_mem_nil,
          or_false, Bool.not_eq_true] at h
        rw [Bool.not_eq_true] at hres
        simp only [hres, Bool.false_eq_true, if_false, List.mem_cons, List.not_mem_nil,
          or_false] at h
        exact Or.inl h
    · simp [startElemCalls, halo, Bool.eq_false_iff.mpr hen] at h

theorem startElems_mem {b : CtrlBehavior} {cid : Nat} {mv : MasterValue}
    {chans : List (PElem × ChanInfo)} {es : List PElem} {c : CtrlCall}
    (h : c ∈ (startElems b cid mv chans es).1) :
    ∃ e ∈ es, c = .PreStartOne cid e.axis mv ∨ c = .StartOne cid e.axis mv := by
  induction es with
  | nil => simp [startElems] at h
  | cons e es ih =>
      rcases halo : alookup chans e with _ | ci
      · simp [startElems, halo] at h
      · by_cases hen : ci.enabled = true
        · by_cases hres : b.preStartOne e.axis mv = true
          · simp only [startElems, halo, hen, hres, if_true, List.mem_cons] at h
            rcases h with rfl | rfl | h
            · exact ⟨e, List.mem_cons_self e es, Or.inl rfl⟩
            · exact ⟨e, List.mem_cons_self e es, Or.inr rfl⟩
            · obtain ⟨e1, he1, hc⟩ := ih h
              exact ⟨e1, List.mem_cons_of_mem e he1, hc⟩
          · rw [Bool.not_eq_true] at hres
            simp only [startElems, halo, hen, hres, if_true, Bool.false_eq_true, if_false,
              List.mem_cons, List.not_mem_nil, or_false] at h
            exact ⟨e, List.mem_cons_self e es, Or.inl h⟩
        · rw [Bool.not_eq_true] at hen
          simp only [startElems, halo, hen, Bool.false_eq_true, if_false] at h
          obtain ⟨e1, he1, hc⟩ := ih h
          exact ⟨e1, List.mem_cons_of_mem e he1, hc⟩

theorem startElems_ok {b : CtrlBehavior} {cid : Nat} {mv : MasterValue}
    {chans : List (PElem × ChanInfo)} {es : List PElem}
    (h : (startElems b cid mv chans es).2 = none) :
    (startElems b cid mv chans es).1 =
      (es.map (startElemCalls b cid mv chans)).flatten := by
  induction es with
  | nil => rfl
  | cons e es ih =>
      rcases halo : alookup chans e with _ | ci
      · simp [startElems, halo] at h
      · by_cases hen : ci.enabled = true
        · by_cases hres : b.preStartOne e.axis mv = true
          · simp only [startElems, halo, hen, hres, if_true] at h ⊢
            simp only [List.map_cons, List.flatten_cons, startElemCalls, halo, hen, hres,
              if_true]
            simp [ih h]
          · rw [Bool.not_eq_true] at hres
            simp [startElems, halo, hen, hres] at h
        · rw [Bool.not_eq_true] at hen
          simp only [startElems, halo, hen, Bool.false_eq_true, if_false] at h ⊢
          simp only [List.map_cons, List.flatten_cons, startElemCalls, halo, hen,
            Bool.false_eq_true, if_false]
          simp [ih h]

theorem startElems_no_startOne {b : CtrlBehavior} {cid : Nat} {mv : MasterValue}
    {chans : List (PElem × ChanInfo)} {es : List PElem} {a : Nat}
    (hb : b.preStartOne a mv = false) :
    CtrlCall.StartOne cid a mv ∉ (startElems b cid mv chans es).1 := by
  induction es with
  | nil => simp [startElems]
  | cons e es ih =>
      rcases halo : alookup chans e with _ | ci
      · simp [startElems, halo]
      · by_cases hen : ci.enabled = true
        · by_cases hres : b.preStartOne e.axis mv = true
          · simp only [startElems, halo, hen, hres, if_true, List.mem_cons]
            intro h
            rcases h with h | h | h
            · cases h
            · injection h with h1 h2 h3
              subst h2
              rw [hb] at hres
              cases hres
            · exact ih h
          · rw [Bool.not_eq_true] at hres
            simp only [startElems, halo, hen, hres, if_true, Bool.false_eq_true, if_false,
              List.mem_cons, List.not_mem_nil, or_false]
            intro h
            cases h
        · rw [Bool.not_eq_true] at hen
          simp only [startElems, halo, hen, Bool.false_eq_true, if_false]
          exact ih

theorem startElems_probe {b : CtrlBehavior} {cid : Nat} {mv : MasterValue}
    {chans : List (PElem × ChanInfo)} {es : List PElem} {a : Nat}
    (hb : b.preStartOne a mv = false)
    (hm : CtrlCall.PreStartOne cid a mv ∈ (startElems b cid mv chans es).1) :
    (startElems b cid mv chans es).2 = some (.preStartOneFalse cid a) := by
  induction es with
  | nil => simp [startElems] at hm
  | cons e es ih =>
      rcases halo : alookup chans e with _ | ci
      · simp [startElems, halo] at hm
      · by_cases hen : ci.enabled = true
        · by_cases hres : b.preStartOne e.axis mv = true
          · simp only [startElems, halo, hen, hres, if_true, List.mem_cons] at hm ⊢
            rcases hm with hm | hm | hm
            · injection hm with h1 h2 h3
              subst h2
              rw [hb] at hres
              cases hres
            · cases hm
            · exact ih hm
          · rw [Bool.not_eq_true] at hres
            simp only [startElems, halo, hen, hres, if_true, Bool.false_eq_true, if_false,
              List.mem_cons, List.not_mem_nil, or_false] at hm ⊢
            injection hm with h1 h2 h3
            subst h2
            rfl
        · rw [Bool.not_eq_true] at hen
          simp only [startElems, halo, hen, Bool.false_eq_true, if_false] at hm ⊢
          exact ih hm

theorem startElems_err {b : CtrlBehavior} {cid : Nat} {mv : MasterValue}
    {chans : List (PElem × ChanInfo)} {es : List PElem} {e : StartError}
    (h : (startElems b cid mv chans es).2 = some e) :
    e = .keyError ∨ ∃ c a, e = .preStartOneFalse c a := by
  induction es with
  | nil => simp [startElems] at h
  | cons e1 es ih =>
      rcases halo : alookup chans e1 with _ | ci
      · simp only [startElems, halo] at h
        exact Or.inl (Option.some_inj.mp h).symm
      · by_cases hen : ci.enabled = true
        · by_cases hres : b.preStartOne e1.axis mv = true
          · simp only [startElems, halo, hen, hres, if_true] at h
            exact ih h
          · rw [Bool.not_eq_true] at hres
            simp only [startElems, halo, hen, hres, if_true, Bool.false_eq_true,
              if_false] at h
            exact Or.inr ⟨cid, e1.axis, (Option.some_inj.mp h).symm⟩
        · rw [Bool.not_eq_true] at hen
          simp only [startElems, halo, hen, Bool.false_eq_true, if_false] at h
          exact ih h

theorem loadPhase_eq_phaseFold (beh : Nat → CtrlBehavior) (mk : MasterKey)
    (mv : MasterValue) (reps : Option Int) (l : List (PoolCtrl × CtrlInfo)) :
    loadPhase beh mk mv reps l = phaseFold (loadOneCtrl beh mk mv reps) l := rfl

theorem startPhase_eq_phaseFold (beh : Nat → CtrlBehavior) (mk : MasterKey)
    (mv : MasterValue) (l : List (PoolCtrl × CtrlInfo)) :
    startPhase beh mk mv l = phaseFold (startCtrl beh mk mv) l := rfl

theorem contStartPhase_eq_phaseFold (beh : Nat → CtrlBehavior)
    (mv : MasterValue) (l : List (PoolCtrl × CtrlInfo)) :
    contStartPhase beh mv l = phaseFold (contStartCtrl beh mv) l := rfl

theorem startCtrl_mem {beh : Nat → CtrlBehavior} {mk : MasterKey} {mv : MasterValue}
    {p : PoolCtrl × CtrlInfo} {c : CtrlCall}
    (h : c ∈ (startCtrl beh mk mv p).1) :
    ctrlOfCall c = p.1.id ∧ (kindOf c = .preStartOne ∨ kindOf c = .startOne) := by
  rcases hrem : pyRemove (p.2.channels.map Prod.fst) (selectMaster mk p.2) with _ | keys
  · simp [startCtrl, hrem] at h
  · simp only [startCtrl, hrem] at h
    obtain ⟨e, _, hc⟩ := startElems_mem h
    rcases hc with rfl | rfl
    · exact ⟨rfl, Or.inl rfl⟩
    · exact ⟨rfl, Or.inr rfl⟩

theorem startCtrl_ok {beh : Nat → CtrlBehavior} {mk : MasterKey} {mv : MasterValue}
    {p : PoolCtrl × CtrlInfo} (h : (startCtrl beh mk mv p).2 = none) :
    ∃ keys, pyRemove (p.2.channels.map Prod.fst) (selectMaster mk p.2) = some keys ∧
      (startCtrl beh mk mv p).1 =
        ((keys ++ [selectMaster mk p.2]).map
          (startElemCalls (beh p.1.id) p.1.id mv p.2.channels)).flatten := by
  rcases hrem : pyRemove (p.2.channels.map Prod.fst) (selectMaster mk p.2) with _ | keys
  · simp [startCtrl, hrem] at h
  · simp only [startCtrl, hrem] at h ⊢
    exact ⟨keys, rfl, startElems_ok h⟩

theorem startCtrl_err {beh : Nat → CtrlBehavior} {mk : MasterKey} {mv : MasterValue}
    {p : PoolCtrl × CtrlInfo} {e : StartError}
    (h : (startCtrl beh mk mv p).2 = some e) : e ≠ .configError := by
  rcases hrem : pyRemove (p.2.channels.map Prod.fst) (selectMaster mk p.2) with _ | keys
  · simp only [startCtrl, hrem, Option.some_inj] at h
    subst h
    intro hc
    cases hc
  · simp only [startCtrl, hrem] at h
    rcases startElems_err h with rfl | ⟨c1, a1, rfl⟩ <;> intro hc <;> cases hc

theorem startCtrl_no_startOne {beh : Nat → CtrlBehavior} {mk : MasterKey}
    {mv : MasterValue} {p : PoolCtrl × CtrlInfo} {cid a : Nat}
    (hb : (beh cid).preStartOne a mv = false) :
    CtrlCall.StartOne cid a mv ∉ (startCtrl beh mk mv p).1 := by
  intro h
  by_cases hid : p.1.id = cid
  · subst hid
    rcases hrem : pyRemove (p.2.channels.map Prod.fst) (selectMaster mk p.2) with _ | keys
    · simp [startCtrl, hrem] at h
    · simp only [startCtrl, hrem] at h
      exact startElems_no_startOne hb h
  · exact hid (startCtrl_mem h).1.symm

theorem startCtrl_probe {beh : Nat → CtrlBehavior} {mk : MasterKey}
    {mv : MasterValue} {p : PoolCtrl × CtrlInfo} {cid a : Nat}
    (hb : (beh cid).preStartOne a mv = false)
    (h : CtrlCall.PreStartOne cid a mv ∈ (startCtrl beh mk mv p).1) :
    (startCtrl beh mk mv p).2 = some (.preStartOneFalse cid a) := by
  by_cases hid : p.1.id = cid
  · subst hid
    rcases hrem : pyRemove (p.2.channels.map Prod.fst) (selectMaster mk p.2) with _ | keys
    · simp [startCtrl, hrem] at h
    · simp only [startCtrl, hrem] at h ⊢
      exact startElems_probe hb h
  · exact absurd (startCtrl_mem h).1.symm hid

theorem contStartCtrl_mem {beh : Nat → CtrlBehavior} {mv : MasterValue}
    {p : PoolCtrl × CtrlInfo} {c : CtrlCall}
    (h : c ∈ (contStartCtrl beh mv p).1) :
    ctrlOfCall c = p.1.id ∧ (kindOf c = .preStartOne ∨ kindOf c = .startOne) := by
  unfold contStartCtrl at h
  obtain ⟨e, _, hc⟩ := startElems_mem h
  rcases hc with rfl | rfl
  · exact ⟨rfl, Or.inl rfl⟩
  · exact ⟨rfl, Or.inr rfl⟩

theorem contStartCtrl_no_startOne {beh : Nat → CtrlBehavior} {mv : MasterValue}
    {p : PoolCtrl × CtrlInfo} {cid a : Nat}
    (hb : (beh cid).preStartOne a mv = false) :
    CtrlCall.StartOne cid a mv ∉ (contStartCtrl beh mv p).1 := by
  intro h
  by_cases hid : p.1.id = cid
  · subst hid
    exact startElems_no_startOne hb h
  · exact hid (contStartCtrl_mem h).1.symm

theorem contStartCtrl_probe {beh : Nat → CtrlBehavior} {mv : MasterValue}
    {p : PoolCtrl × CtrlInfo} {cid a : Nat}
    (hb : (beh cid).preStartOne a mv = false)
    (h : CtrlCall.PreStartOne cid a mv ∈ (contStartCtrl beh mv p).1) :
    (contStartCtrl beh mv p).2 = some (.preStartOneFalse cid a) := by
  by_cases hid : p.1.id = cid
  · subst hid
    exact startElems_probe hb h
  · exact absurd (contStartCtrl_mem h).1.symm hid

/-! ## Decomposition of `start_action` -/

theorem validate_some {kw : StartKwargs} {e : StartError}
    (h : validate kw = some e) : e = .configError := by
  rcases hit : kw.integ_time with _ | it <;> rcases hmc : kw.monitor_count with _ | n <;>
      simp only [validate, hit, hmc] at h <;>
    first
      | exact (Option.some_inj.mp h).symm
      | exact Option.noConfusion h

theorem runPhases_ok {beh : Nat → CtrlBehavior} {mk : MasterKey} {mv : MasterValue}
    {reps : Option Int} {ordered : List (PoolCtrl × CtrlInfo)} {tr : List CtrlCall}
    (h : runPhases beh mk mv reps ordered = (tr, none)) :
    (loadPhase beh mk mv reps ordered).2 = none ∧
      (startPhase beh mk mv ordered).2 = none ∧
      tr = (loadPhase beh mk mv reps ordered).1 ++
        (ordered.map (fun p => CtrlCall.PreStartAll p.1.id) ++
          ((startPhase beh mk mv ordered).1 ++
            ordered.map (fun p => CtrlCall.StartAll p.1.id))) := by
  unfold runPhases at h
  rcases hl : loadPhase beh mk mv reps ordered with ⟨tr1, e1⟩
  rw [hl] at h
  cases e1 with
  | some e0 => simp at h
  | none =>
      rcases hs : startPhase beh mk mv ordered with ⟨tr3, e3⟩
      rw [hs] at h
      cases e3 with
      | some e0 => simp at h
      | none =>
          simp only [Prod.mk.injEq, and_true] at h
          exact ⟨rfl, rfl, h.symm⟩

theorem runPhases_not_configError {beh : Nat → CtrlBehavior} {mk : MasterKey}
    {mv : MasterValue} {reps : Option Int} {ordered : List (PoolCtrl × CtrlInfo)} :
    (runPhases beh mk mv reps ordered).2 ≠ some .configError := by
  unfold runPhases
  rcases hl : loadPhase beh mk mv reps ordered with ⟨tr1, e1⟩
  cases e1 with
  | some e0 =>
      intro hc
      simp only at hc
      cases Option.some_inj.mp hc
      rw [loadPhase_eq_phaseFold] at hl
      obtain ⟨x, _, hx⟩ := phaseFold_err (by rw [hl] :
        (phaseFold (loadOneCtrl beh mk mv reps) ordered).2 = some StartError.configError)
      cases loadOneCtrl_err hx
  | none =>
      rcases hs : startPhase beh mk mv ordered with ⟨tr3, e3⟩
      cases e3 with
      | some e0 =>
          intro hc
          simp only at hc
          cases Option.some_inj.mp hc
          rw [startPhase_eq_phaseFold] at hs
          obtain ⟨x, _, hx⟩ := phaseFold_err (by rw [hs] :
            (phaseFold (startCtrl beh mk mv) ordered).2 = some StartError.configError)
          exact startCtrl_err hx rfl
      | none => simp

theorem start_action_ok {beh : Nat → CtrlBehavior} {kw : StartKwargs} {cfg : MGConfig}
    {tr : List CtrlCall} (h : start_action beh kw cfg = (tr, none)) :
    ∃ mp rest, validate kw = none ∧
      removeFirstCtrl (cfg.controllers.filter (fun p => p.1.is_timerable))
        (cfgMaster (masterKeyOf kw) cfg).ctrl = some (mp, rest) ∧
      runPhases beh (masterKeyOf kw) (masterValueOf kw) kw.repetitions (rest ++ [mp]) =
        (tr, none) := by
  rcases hv : validate kw with _ | e
  · simp only [start_action, hv] at h
    rcases hr : removeFirstCtrl (cfg.controllers.filter (fun p => p.1.is_timerable))
        (cfgMaster (masterKeyOf kw) cfg).ctrl with _ | ⟨mp, rest⟩
    · rw [hr] at h; simp at h
    · rw [hr] at h
      exact ⟨mp, rest, rfl, rfl, h⟩
  · simp only [start_action, hv] at h
    simp at h

theorem start_action_split (beh : Nat → CtrlBehavior) (kw : StartKwargs) (cfg : MGConfig) :
    (start_action beh kw cfg).1 = [] ∨
    ∃ mp rest,
      removeFirstCtrl (cfg.controllers.filter (fun p => p.1.is_timerable))
        (cfgMaster (masterKeyOf kw) cfg).ctrl = some (mp, rest) ∧
      start_action beh kw cfg =
        runPhases beh (masterKeyOf kw) (masterValueOf kw) kw.repetitions (rest ++ [mp]) := by
  rcases hv : validate kw with _ | e
  · rcases hr : removeFirstCtrl (cfg.controllers.filter (fun p => p.1.is_timerable))
        (cfgMaster (masterKeyOf kw) cfg).ctrl with _ | ⟨mp, rest⟩
    · left
      simp [start_action, hv, hr]
    · right
      exact ⟨mp, rest, rfl, by simp [start_action, hv, hr]⟩
  · left
    simp [start_action, hv]

/-! ## Inter-controller ordering: the master controller is sequenced last -/

theorem and_false_of_kind_ne {c : CtrlCall} {k1 k2 : CallKind} (h : kindOf c = k1)
    (hne : (k1 == k2) = false) (b : Bool) : ((kindOf c == k2) && b) = false := by
  rw [h, hne, Bool.false_and]

theorem and_false_of_ctrl_ne {c : CtrlCall} {mid : Nat} (h : ctrlOfCall c ≠ mid)
    (a : Bool) : (a && (ctrlOfCall c == mid)) = false := by
  have hb : (ctrlOfCall c == mid) = false := by simp [h]
  rw [hb, Bool.and_false]

theorem and_false_of_ctrl_eq {c : CtrlCall} {mid : Nat} (h : ctrlOfCall c = mid)
    (a : Bool) : (a && !(ctrlOfCall c == mid)) = false := by
  have hb : (ctrlOfCall c == mid) = true := by simp [h]
  rw [hb, Bool.not_true, Bool.and_false]

theorem runPhases_masterCtrlLast {beh : Nat → CtrlBehavior} {mk : MasterKey}
    {mv : MasterValue} {reps : Option Int} {rest : List (PoolCtrl × CtrlInfo)}
    {mp : PoolCtrl × CtrlInfo} {tr : List CtrlCall}
    (hrun : runPhases beh mk mv reps (rest ++ [mp]) = (tr, none))
    (hrest : ∀ p ∈ rest, p.1.id ≠ mp.1.id) :
    ∀ k ∈ [CallKind.preLoadOne, CallKind.loadOne, CallKind.preStartOne, CallKind.startOne],
      masterCtrlLastForKind k mp.1.id tr = true := by
  obtain ⟨hl2, hs2, htr⟩ := runPhases_ok hrun
  rw [loadPhase_eq_phaseFold] at hl2 htr
  rw [startPhase_eq_phaseFold] at hs2 htr
  obtain ⟨hLtr, _⟩ := phaseFold_ok hl2
  obtain ⟨hStr, _⟩ := phaseFold_ok hs2
  rw [hLtr, hStr] at htr
  simp only [List.map_append, List.flatten_append, List.map_cons, List.map_nil,
    List.flatten_cons, List.flatten_nil, List.append_nil, List.append_assoc] at htr
  have memA1 : ∀ c ∈ (rest.map fun x => (loadOneCtrl beh mk mv reps x).1).flatten,
      ctrlOfCall c ≠ mp.1.id ∧
        (kindOf c = .preLoadAll ∨ kindOf c = .preLoadOne ∨
          kindOf c = .loadOne ∨ kindOf c = .loadAll) := by
    intro c hc
    obtain ⟨l, hl, hcl⟩ := List.mem_flatten.mp hc
    obtain ⟨x, hx, rfl⟩ := List.mem_map.mp hl
    obtain ⟨h1, h2⟩ := loadOneCtrl_mem hcl
    exact ⟨by rw [h1]; exact hrest x hx, h2⟩
  have memA2 : ∀ c ∈ (loadOneCtrl beh mk mv reps mp).1,
      ctrlOfCall c = mp.1.id ∧
        (kindOf c = .preLoadAll ∨ kindOf c = .preLoadOne ∨
          kindOf c = .loadOne ∨ kindOf c = .loadAll) := by
    intro c hc
    exact loadOneCtrl_mem hc
  have memA3 : ∀ c ∈ rest.map (fun p => CtrlCall.PreStartAll p.1.id),
      kindOf c = .preStartAll := by
    intro c hc
    obtain ⟨x, _, rfl⟩ := List.mem_map.mp hc
    rfl
  have memA5 : ∀ c ∈ (rest.map fun x => (startCtrl beh mk mv x).1).flatten,
      ctrlOfCall c ≠ mp.1.id ∧ (kindOf c = .preStartOne ∨ kindOf c = .startOne) := by
    intro c hc
    obtain ⟨l, hl, hcl⟩ := List.mem_flatten.mp hc
    obtain ⟨x, hx, rfl⟩ := List.mem_map.mp hl
    obtain ⟨h1, h2⟩ := startCtrl_mem hcl
    exact ⟨by rw [h1]; exact hrest x hx, h2⟩
  have memA6 : ∀ c ∈ (startCtrl beh mk mv mp).1,
      ctrlOfCall c = mp.1.id ∧ (kindOf c = .preStartOne ∨ kindOf c = .startOne) := by
    intro c hc
    exact startCtrl_mem hc
  have memA7 : ∀ c ∈ rest.map (fun p => CtrlCall.StartAll p.1.id),
      kindOf c = .startAll := by
    intro c hc
    obtain ⟨x, _, rfl⟩ := List.mem_map.mp hc
    rfl
  intro k hk
  simp only [List.mem_cons, List.not_mem_nil, or_false] at hk
  unfold masterCtrlLastForKind
  have hload : (CallKind.preStartOne == k) = false → (CallKind.startOne == k) = false →
      (CallKind.preStartAll == k) = false → (CallKind.startAll == k) = false →
      allBefore
        (fun c => (kindOf c == k) && !(ctrlOfCall c == mp.1.id))
        (fun c => (kindOf c == k) && (ctrlOfCall c == mp.1.id)) tr = true := by
    intro hq1 hq2 hq3 hq4
    rw [htr]
    apply allBefore_append
    · intro c hc
      exact and_false_of_ctrl_ne (memA1 c hc).1 _
    · intro c hc
      rcases List.mem_append.mp hc with hc | hc
      · exact and_false_of_ctrl_eq (memA2 c hc).1 _
      · rcases List.mem_append.mp hc with hc | hc
        · exact and_false_of_kind_ne (memA3 c hc) hq3 _
        · rcases List.mem_append.mp hc with hc | hc
          · simp only [List.mem_singleton] at hc
            subst hc
            exact and_false_of_kind_ne rfl hq3 _
          · rcases List.mem_append.mp hc with hc | hc
            · rcases (memA5 c hc).2 with hki | hki
              · exact and_false_of_kind_ne hki hq1 _
              · exact and_false_of_kind_ne hki hq2 _
            · rcases List.mem_append.mp hc with hc | hc
              · rcases (memA6 c hc).2 with hki | hki
                · exact and_false_of_kind_ne hki hq1 _
                · exact and_false_of_kind_ne hki hq2 _
              · rcases List.mem_append.mp hc with hc | hc
                · exact and_false_of_kind_ne (memA7 c hc) hq4 _
                · simp only [List.mem_singleton] at hc
                  subst hc
                  exact and_false_of_kind_ne rfl hq4 _
  have hstart : (CallKind.preLoadAll == k) = false → (CallKind.preLoadOne == k) = false →
      (CallKind.loadOne == k) = false → (CallKind.loadAll == k) = false →
      (CallKind.preStartAll == k) = false → (CallKind.startAll == k) = false →
      allBefore
        (fun c => (kindOf c == k) && !(ctrlOfCall c == mp.1.id))
        (fun c => (kindOf c == k) && (ctrlOfCall c == mp.1.id)) tr = true := by
    intro hq0 hq1 hq2 hq3 hq4 hq5
    have htrS : tr =
        ((rest.map fun x => (loadOneCtrl beh mk mv reps x).1).flatten ++
          ((loadOneCtrl beh mk mv reps mp).1 ++
            (rest.map (fun p => CtrlCall.PreStartAll p.1.id) ++
              ([CtrlCall.PreStartAll mp.1.id] ++
                (rest.map fun x => (startCtrl beh mk mv x).1).flatten)))) ++
        ((startCtrl beh mk mv mp).1 ++
          (rest.map (fun p => CtrlCall.StartAll p.1.id) ++
            [CtrlCall.StartAll mp.1.id])) := by
      rw [htr]
      simp [List.append_assoc]
    rw [htrS]
    apply allBefore_append
    · intro c hc
      rcases List.mem_append.mp hc with hc | hc
      · rcases (memA1 c hc).2 with hki | hki | hki | hki
        · exact and_false_of_kind_ne hki hq0 _
        · exact and_false_of_kind_ne hki hq1 _
        · exact and_false_of_kind_ne hki hq2 _
        · exact and_false_of_kind_ne hki hq3 _
      · rcases List.mem_append.mp hc with hc | hc
        · rcases (memA2 c hc).2 with hki | hki | hki | hki
          · exact and_false_of_kind_ne hki hq0 _
          · exact and_false_of_kind_ne hki hq1 _
          · exact and_false_of_kind_ne hki hq2 _
          · exact and_false_of_kind_ne hki hq3 _
        · rcases List.mem_append.mp hc with hc | hc
          · exact and_false_of_kind_ne (memA3 c hc) hq4 _
          · rcases List.mem_append.mp hc with hc | hc
            · simp only [List.mem_singleton] at hc
              subst hc
              exact and_false_of_kind_ne rfl hq4 _
            · exact and_false_of_ctrl_ne (memA5 c hc).1 _
    · intro c hc
      rcases List.mem_append.mp hc with hc | hc
      · exact and_false_of_ctrl_eq (memA6 c hc).1 _
      · rcases List.mem_append.mp hc with hc | hc
        · exact and_false_of_kind_ne (memA7 c hc) hq5 _
        · simp only [List.mem_singleton] at hc
          subst hc
          exact and_false_of_kind_ne rfl hq5 _
  rcases hk with rfl | rfl | rfl | rfl
  · exact hload rfl rfl rfl rfl
  · exact hload rfl rfl rfl rfl
  · exact hstart rfl rfl rfl rfl rfl rfl
  · exact hstart rfl rfl rfl rfl rfl rfl

theorem nodup_middle_ne {α β : Type} {f : α → β} {l1 l2 : List α} {a : α}
    (h : ((l1 ++ a :: l2).map f).Nodup) :
    (∀ x ∈ l1, f x ≠ f a) ∧ (∀ x ∈ l2, f x ≠ f a) := by
  rw [List.map_append, List.map_cons, List.nodup_append] at h
  obtain ⟨h1, h2, h3⟩ := h
  constructor
  · intro x hx heq
    exact h3 (List.mem_map_of_mem f hx) (heq ▸ List.mem_cons_self (f a) (l2.map f))
  · intro x hx heq
    exact (List.nodup_cons.mp h2).1 (heq ▸ List.mem_map_of_mem f hx)

theorem runPhases_ctrl_origin {beh : Nat → CtrlBehavior} {mk : MasterKey}
    {mv : MasterValue} {reps : Option Int} {ordered : List (PoolCtrl × CtrlInfo)}
    {tr : List CtrlCall} (hrun : runPhases beh mk mv reps ordered = (tr, none)) :
    ∀ c ∈ tr, ∃ x ∈ ordered, ctrlOfCall c = x.1.id := by
  obtain ⟨_, _, htr⟩ := runPhases_ok hrun
  intro c hc
  rw [htr, loadPhase_eq_phaseFold, startPhase_eq_phaseFold] at hc
  rcases List.mem_append.mp hc with hc | hc
  · obtain ⟨x, hx, hcx⟩ := phaseFold_mem hc
    exact ⟨x, hx, (loadOneCtrl_mem hcx).1⟩
  · rcases List.mem_append.mp hc with hc | hc
    · obtain ⟨x, hx, rfl⟩ := List.mem_map.mp hc
      exact ⟨x, hx, rfl⟩
    · rcases List.mem_append.mp hc with hc | hc
      · obtain ⟨x, hx, hcx⟩ := phaseFold_mem hc
        exact ⟨x, hx, (startCtrl_mem hcx).1⟩
      · obtain ⟨x, hx, rfl⟩ := List.mem_map.mp hc
        exact ⟨x, hx, rfl⟩

/-- C4: in every successful `start_action` sequencing over a configuration
with distinct controllers, the `PreLoadOne`, `LoadOne`, `PreStartOne` and
`StartOne` calls addressed to the controller owning the master channel occur
strictly after the corresponding calls of every other controller. -/
theorem C4_master_controller_last {beh : Nat → CtrlBehavior} {kw : StartKwargs}
    {cfg : MGConfig} {tr : List CtrlCall}
    (hnd : (cfg.controllers.map (fun p => p.1.id)).Nodup)
    (hrun : start_action beh kw cfg = (tr, none)) :
    ∀ k ∈ [CallKind.preLoadOne, CallKind.loadOne, CallKind.preStartOne, CallKind.startOne],
      masterCtrlLastForKind k (cfgMaster (masterKeyOf kw) cfg).ctrl tr = true := by
  obtain ⟨mp, rest, hv, hr, hphases⟩ := start_action_ok hrun
  have hmpid : mp.1.id = (cfgMaster (masterKeyOf kw) cfg).ctrl := removeFirstCtrl_id hr
  have hfnd : ((cfg.controllers.filter fun p => p.1.is_timerable).map
      fun p => p.1.id).Nodup :=
    hnd.sublist ((List.filter_sublist _).map _)
  have hperm := removeFirstCtrl_perm hr
  have hnd2 : ((mp :: rest).map fun p => p.1.id).Nodup := ((hperm.map _).nodup_iff).mp hfnd
  have hrest : ∀ p ∈ rest, p.1.id ≠ mp.1.id := by
    simp only [List.map_cons, List.nodup_cons] at hnd2
    intro p hp hpe
    exact hnd2.1 (hpe ▸ List.mem_map_of_mem _ hp)
  rw [← hmpid]
  exact runPhases_masterCtrlLast hphases hrest

/-! ## Intra-controller ordering: the master channel is started last -/

theorem isStartKindCall_false {c : CtrlCall} {k1 : CallKind} (h : kindOf c = k1)
    (h1 : (k1 == CallKind.preStartOne) = false)
    (h2 : (k1 == CallKind.startOne) = false) : isStartKindCall c = false := by
  unfold isStartKindCall
  rw [h, h1, h2]
  rfl

theorem isStartKindCall_PreStartAll (cid : Nat) :
    isStartKindCall (CtrlCall.PreStartAll cid) = false := rfl

theorem isStartKindCall_StartAll (cid : Nat) :
    isStartKindCall (CtrlCall.StartAll cid) = false := rfl

theorem mas_false_of_kind {c : CtrlCall} (h : isStartKindCall c = false) (b1 b2 : Bool) :
    ((isStartKindCall c && b1) && b2) = false := by
  rw [h, Bool.false_and, Bool.false_and]

theorem mas_false_of_ctrl_ne {c : CtrlCall} {pid : Nat} (h : ctrlOfCall c ≠ pid)
    (b0 b2 : Bool) : ((b0 && (ctrlOfCall c == pid)) && b2) = false := by
  have hb : (ctrlOfCall c == pid) = false := by simp [h]
  rw [hb, Bool.and_false, Bool.false_and]

theorem mas_false_of_axis_ne {c : CtrlCall} {ax : Nat} (h : axisOfCall c ≠ ax)
    (b01 : Bool) : (b01 && (axisOfCall c == ax)) = false := by
  have hb : (axisOfCall c == ax) = false := by simp [h]
  rw [hb, Bool.and_false]

theorem mas_false_of_axis_eq {c : CtrlCall} {ax : Nat} (h : axisOfCall c = ax)
    (b01 : Bool) : (b01 && !(axisOfCall c == ax)) = false := by
  have hb : (axisOfCall c == ax) = true := by simp [h]
  rw [hb, Bool.not_true, Bool.and_false]

/-- The amended C2: in every successful `PoolAcquisitionBase.start_action`
sequencing (distinct controller ids, distinct channel axes per controller),
within each controller the `PreStartOne`/`StartOne` calls of the controller's
timer/monitor channel occur after those of every other enabled channel of
that controller. -/
theorem C2_base_master_channel_last {beh : Nat → CtrlBehavior} {kw : StartKwargs}
    {cfg : MGConfig} {tr : List CtrlCall}
    (hnd : (cfg.controllers.map (fun p => p.1.id)).Nodup)
    (hax : ∀ p ∈ cfg.controllers, (p.2.channels.map (fun q => q.1.axis)).Nodup)
    (hrun : start_action beh kw cfg = (tr, none)) :
    ∀ p ∈ cfg.controllers,
      masterAfterSiblings p.1.id (selectMaster (masterKeyOf kw) p.2).axis tr = true := by
  obtain ⟨mp, rest, hv, hr, hphases⟩ := start_action_ok hrun
  have hperm := removeFirstCtrl_perm hr
  have hfnd : ((cfg.controllers.filter fun x => x.1.is_timerable).map
      fun x => x.1.id).Nodup :=
    hnd.sublist ((List.filter_sublist _).map _)
  have hordperm : List.Perm (rest ++ [mp])
      (cfg.controllers.filter fun x => x.1.is_timerable) :=
    (List.perm_append_singleton _ _).trans hperm.symm
  have hordnd : ((rest ++ [mp]).map fun x => x.1.id).Nodup :=
    ((hordperm.map _).nodup_iff).mpr hfnd
  have hordsub : ∀ x ∈ rest ++ [mp], x ∈ cfg.controllers := fun x hx =>
    List.mem_of_mem_filter (hordperm.mem_iff.mp hx)
  intro p hp
  unfold masterAfterSiblings
  by_cases hmem : p ∈ rest ++ [mp]
  · obtain ⟨o1, o2, hsplit⟩ := List.append_of_mem hmem
    obtain ⟨hl2, hs2, htr⟩ := runPhases_ok hphases
    rw [loadPhase_eq_phaseFold] at hl2 htr
    rw [startPhase_eq_phaseFold] at hs2 htr
    obtain ⟨hLtr, hLall⟩ := phaseFold_ok hl2
    obtain ⟨hStr, hSall⟩ := phaseFold_ok hs2
    rw [hLtr, hStr] at htr
    obtain ⟨keys, hkeys, hpseg⟩ := startCtrl_ok (hSall p hmem)
    rw [hsplit] at htr hordnd
    obtain ⟨hno1, hno2⟩ := nodup_middle_ne hordnd
    simp only [List.map_append, List.flatten_append, List.map_cons, List.flatten_cons,
      List.map_nil, List.flatten_nil, List.append_nil, List.append_assoc] at htr
    rw [hpseg] at htr
    simp only [List.map_append, List.flatten_append, List.map_cons, List.flatten_cons,
      List.map_nil, List.flatten_nil, List.append_nil, List.append_assoc] at htr
    have haxnd2 : ((p.2.channels.map Prod.fst).map (fun e => e.axis)).Nodup := by
      rw [List.map_map]
      exact hax p hp
    have htm_notin : selectMaster (masterKeyOf kw) p.2 ∉ keys :=
      pyRemove_not_mem (List.Nodup.of_map _ haxnd2) hkeys
    have hsib : ∀ e ∈ keys, e.axis ≠ (selectMaster (masterKeyOf kw) p.2).axis := by
      intro e he heq
      have heqe : e = selectMaster (masterKeyOf kw) p.2 :=
        List.inj_on_of_nodup_map haxnd2 (pyRemove_subset hkeys e he)
          (pyRemove_mem hkeys) heq
      exact htm_notin (heqe ▸ he)
    have htr2 : tr =
        ((o1.map fun x =>
            (loadOneCtrl beh (masterKeyOf kw) (masterValueOf kw) kw.repetitions x).1).flatten ++
          ((loadOneCtrl beh (masterKeyOf kw) (masterValueOf kw) kw.repetitions p).1 ++
            ((o2.map fun x =>
                (loadOneCtrl beh (masterKeyOf kw) (masterValueOf kw) kw.repetitions x).1).flatten ++
              ((o1.map fun x => CtrlCall.PreStartAll x.1.id) ++
                (CtrlCall.PreStartAll p.1.id ::
                  ((o2.map fun x => CtrlCall.PreStartAll x.1.id) ++
                    ((o1.map fun x =>
                        (startCtrl beh (masterKeyOf kw) (masterValueOf kw) x).1).flatten ++
                      (keys.map (startElemCalls (beh p.1.id) p.1.id (masterValueOf kw)
                        p.2.channels)).flatten))))))) ++
        (startElemCalls (beh p.1.id) p.1.id (masterValueOf kw) p.2.channels
            (selectMaster (masterKeyOf kw) p.2) ++
          ((o2.map fun x =>
              (startCtrl beh (masterKeyOf kw) (masterValueOf kw) x).1).flatten ++
            ((o1.map fun x => CtrlCall.StartAll x.1.id) ++
              (CtrlCall.StartAll p.1.id ::
                (o2.map fun x => CtrlCall.StartAll x.1.id))))) := by
      rw [htr]
      simp [List.append_assoc, List.cons_append]
    rw [htr2]
    apply allBefore_append
    · intro c hc
      rcases List.mem_append.mp hc with hc | hc
      · obtain ⟨l, hl, hcl⟩ := List.mem_flatten.mp hc
        obtain ⟨x, hx, rfl⟩ := List.mem_map.mp hl
        rcases (loadOneCtrl_mem hcl).2 with hki | hki | hki | hki <;>
          exact mas_false_of_kind (isStartKindCall_false hki rfl rfl) _ _
      · rcases List.mem_append.mp hc with hc | hc
        · rcases (loadOneCtrl_mem hc).2 with hki | hki | hki | hki <;>
            exact mas_false_of_kind (isStartKindCall_false hki rfl rfl) _ _
        · rcases List.mem_append.mp hc with hc | hc
          · obtain ⟨l, hl, hcl⟩ := List.mem_flatten.mp hc
            obtain ⟨x, hx, rfl⟩ := List.mem_map.mp hl
            rcases (loadOneCtrl_mem hcl).2 with hki | hki | hki | hki <;>
              exact mas_false_of_kind (isStartKindCall_false hki rfl rfl) _ _
          · rcases List.mem_append.mp hc with hc | hc
            · obtain ⟨x, hx, rfl⟩ := List.mem_map.mp hc
              exact mas_false_of_kind (isStartKindCall_PreStartAll _) _ _
            · rcases List.mem_cons.mp hc with rfl | hc
              · exact mas_false_of_kind (isStartKindCall_PreStartAll _) _ _
              · rcases List.mem_append.mp hc with hc | hc
                · obtain ⟨x, hx, rfl⟩ := List.mem_map.mp hc
                  exact mas_false_of_kind (isStartKindCall_PreStartAll _) _ _
                · rcases List.mem_append.mp hc with hc | hc
                  · obtain ⟨l, hl, hcl⟩ := List.mem_flatten.mp hc
                    obtain ⟨x, hx, rfl⟩ := List.mem_map.mp hl
                    have hctrl := (startCtrl_mem hcl).1
                    exact mas_false_of_ctrl_ne (by rw [hctrl]; exact hno1 x hx) _ _
                  · obtain ⟨l, hl, hcl⟩ := List.mem_flatten.mp hc
                    obtain ⟨e, he, rfl⟩ := List.mem_map.mp hl
                    rcases startElemCalls_mem hcl with rfl | rfl <;>
                      · apply mas_false_of_axis_ne
                        exact hsib e he
    · intro c hc
      rcases List.mem_append.mp hc with hc | hc
      · rcases startElemCalls_mem hc with rfl | rfl <;>
          exact mas_false_of_axis_eq rfl _
      · rcases List.mem_append.mp hc with hc | hc
        · obtain ⟨l, hl, hcl⟩ := List.mem_flatten.mp hc
          obtain ⟨x, hx, rfl⟩ := List.mem_map.mp hl
          have hctrl := (startCtrl_mem hcl).1
          exact mas_false_of_ctrl_ne (by rw [hctrl]; exact hno2 x hx) _ _
        · rcases List.mem_append.mp hc with hc | hc
          · obtain ⟨x, hx, rfl⟩ := List.mem_map.mp hc
            exact mas_false_of_kind (isStartKindCall_StartAll _) _ _
          · rcases List.mem_cons.mp hc with rfl | hc
            · exact mas_false_of_kind (isStartKindCall_StartAll _) _ _
            · obtain ⟨x, hx, rfl⟩ := List.mem_map.mp hc
              exact mas_false_of_kind (isStartKindCall_StartAll _) _ _
  · apply allBefore_of_no_q
    intro c hc
    obtain ⟨x, hx, hcx⟩ := runPhases_ctrl_origin hphases c hc
    have hxne : ctrlOfCall c ≠ p.1.id := by
      rw [hcx]
      intro heq
      have hxp : x = p := List.inj_on_of_nodup_map hnd (hordsub x hx) hp heq
      exact hmem (hxp ▸ hx)
    exact mas_false_of_ctrl_ne hxne _ _

/-! ## Error handling of the start sequencing -/

theorem runPhases_C9 (beh : Nat → CtrlBehavior) (mk : MasterKey) (mv : MasterValue)
    (reps : Option Int) (ordered : List (PoolCtrl × CtrlInfo)) {cid a : Nat}
    (hfalse : (beh cid).preStartOne a mv = false) :
    CtrlCall.StartOne cid a mv ∉ (runPhases beh mk mv reps ordered).1 ∧
      (CtrlCall.PreStartOne cid a mv ∈ (runPhases beh mk mv reps ordered).1 →
        (runPhases beh mk mv reps ordered).2 = some (.preStartOneFalse cid a)) := by
  rcases hl : loadPhase beh mk mv reps ordered with ⟨tr1, e1⟩
  have hlfst : (phaseFold (loadOneCtrl beh mk mv reps) ordered).1 = tr1 := by
    rw [← loadPhase_eq_phaseFold, hl]
  have hload_noPre : CtrlCall.PreStartOne cid a mv ∉ tr1 := by
    intro h
    rw [← hlfst] at h
    obtain ⟨x, hx, hcx⟩ := phaseFold_mem h
    rcases (loadOneCtrl_mem hcx).2 with hk | hk | hk | hk <;> simp [kindOf] at hk
  have hload_noStart : CtrlCall.StartOne cid a mv ∉ tr1 := by
    intro h
    rw [← hlfst] at h
    obtain ⟨x, hx, hcx⟩ := phaseFold_mem h
    rcases (loadOneCtrl_mem hcx).2 with hk | hk | hk | hk <;> simp [kindOf] at hk
  have hmap_noPre : ∀ l : List (PoolCtrl × CtrlInfo),
      CtrlCall.PreStartOne cid a mv ∉ l.map (fun p => CtrlCall.PreStartAll p.1.id) := by
    intro l h
    obtain ⟨x, _, hc⟩ := List.mem_map.mp h
    cases hc
  have hmap_noStart : ∀ l : List (PoolCtrl × CtrlInfo),
      CtrlCall.StartOne cid a mv ∉ l.map (fun p => CtrlCall.PreStartAll p.1.id) := by
    intro l h
    obtain ⟨x, _, hc⟩ := List.mem_map.mp h
    cases hc
  have hmap2_noPre : ∀ l : List (PoolCtrl × CtrlInfo),
      CtrlCall.PreStartOne cid a mv ∉ l.map (fun p => CtrlCall.StartAll p.1.id) := by
    intro l h
    obtain ⟨x, _, hc⟩ := List.mem_map.mp h
    cases hc
  have hmap2_noStart : ∀ l : List (PoolCtrl × CtrlInfo),
      CtrlCall.StartOne cid a mv ∉ l.map (fun p => CtrlCall.StartAll p.1.id) := by
    intro l h
    obtain ⟨x, _, hc⟩ := List.mem_map.mp h
    cases hc
  cases e1 with
  | some e0 =>
      refine ⟨?_, ?_⟩
      · simp only [runPhases, hl]
        exact hload_noStart
      · simp only [runPhases, hl]
        intro hm
        exact absurd hm hload_noPre
  | none =>
      rcases hs : startPhase beh mk mv ordered with ⟨tr3, e3⟩
      have hsfst : (phaseFold (startCtrl beh mk mv) ordered).1 = tr3 := by
        rw [← startPhase_eq_phaseFold, hs]
      have hssnd : (phaseFold (startCtrl beh mk mv) ordered).2 = e3 := by
        rw [← startPhase_eq_phaseFold, hs]
      have hstart_no : CtrlCall.StartOne cid a mv ∉ tr3 := by
        intro h
        rw [← hsfst] at h
        obtain ⟨x, hx, hcx⟩ := phaseFold_mem h
        exact startCtrl_no_startOne hfalse hcx
      have hstart_probe : CtrlCall.PreStartOne cid a mv ∈ tr3 →
          e3 = some (.preStartOneFalse cid a) := by
        intro h
        rw [← hsfst] at h
        rw [← hssnd]
        exact phaseFold_probe (fun x hx hm => startCtrl_probe hfalse hm) h
      cases e3 with
      | some e0 =>
          refine ⟨?_, ?_⟩
          · simp only [runPhases, hl, hs]
            intro h
            rcases List.mem_append.mp h with h | h
            · exact hload_noStart h
            · rcases List.mem_append.mp h with h | h
              · exact hmap_noStart _ h
              · exact hstart_no h
          · simp only [runPhases, hl, hs]
            intro hm
            rcases List.mem_append.mp hm with hm | hm
            · exact absurd hm hload_noPre
            · rcases List.mem_append.mp hm with hm | hm
              · exact absurd hm (hmap_noPre _)
              · exact hstart_probe hm
      | none =>
          refine ⟨?_, ?_⟩
          · simp only [runPhases, hl, hs]
            intro h
            rcases List.mem_append.mp h with h | h
            · exact hload_noStart h
            · rcases List.mem_append.mp h with h | h
              · exact hmap_noStart _ h
              · rcases List.mem_append.mp h with h | h
                · exact hstart_no h
                · exact hmap2_noStart _ h
          · simp only [runPhases, hl, hs]
            intro hm
            rcases List.mem_append.mp hm with hm | hm
            · exact absurd hm hload_noPre
            · rcases List.mem_append.mp hm with hm | hm
              · exact absurd hm (hmap_noPre _)
              · rcases List.mem_append.mp hm with hm | hm
                · exact absurd (hstart_probe hm) (by simp)
                · exact absurd hm (hmap2_noPre _)

/-- C9: whenever `start_action` invokes `PreStartOne` for an enabled channel
and the controller answers falsy, the matching `StartOne` is never invoked
for that channel and the protocol exception is the error that propagates out
of `start_action`. -/
theorem C9_prestartone_gate {beh : Nat → CtrlBehavior} {kw : StartKwargs}
    {cfg : MGConfig} {tr : List CtrlCall} {err : Option StartError} {cid a : Nat}
    (hrun : start_action beh kw cfg = (tr, err))
    (hfalse : (beh cid).preStartOne a (masterValueOf kw) = false)
    (hmem : CtrlCall.PreStartOne cid a (masterValueOf kw) ∈ tr) :
    CtrlCall.StartOne cid a (masterValueOf kw) ∉ tr ∧
      err = some (.preStartOneFalse cid a) := by
  rcases start_action_split beh kw cfg with hnil | ⟨mp, rest, hr, heq⟩
  · rw [hrun] at hnil
    simp only at hnil
    subst hnil
    cases hmem
  · have hR : runPhases beh (masterKeyOf kw) (masterValueOf kw) kw.repetitions
        (rest ++ [mp]) = (tr, err) := by rw [← heq, hrun]
    obtain ⟨hno, hprobe⟩ := runPhases_C9 beh (masterKeyOf kw) (masterValueOf kw)
      kw.repetitions (rest ++ [mp]) hfalse
    rw [hR] at hno hprobe
    exact ⟨hno, hprobe hmem⟩

/-- C3: supplying neither or both of integration time and monitor count makes
`start_action` raise the configuration error with an empty controller-call
trace; supplying exactly one of them passes validation, and no later error of
the sequencing is the configuration error. -/
theorem C3_validation_gate (beh : Nat → CtrlBehavior) (kw : StartKwargs)
    (cfg : MGConfig) :
    ((kw.integ_time = none ∧ kw.monitor_count = none) ∨
        (kw.integ_time ≠ none ∧ kw.monitor_count ≠ none) →
      start_action beh kw cfg = ([], some .configError)) ∧
    ((kw.integ_time.isSome ≠ kw.monitor_count.isSome) →
      (start_action beh kw cfg).2 ≠ some .configError) := by
  constructor
  · rintro (⟨h1, h2⟩ | ⟨h1, h2⟩)
    · simp [start_action, validate, h1, h2]
    · rcases hit : kw.integ_time with _ | it
      · exact absurd hit h1
      rcases hmc : kw.monitor_count with _ | n
      · exact absurd hmc h2
      simp [start_action, validate, hit, hmc]
  · intro hx
    have hv : validate kw = none := by
      rcases hit : kw.integ_time with _ | it <;> rcases hmc : kw.monitor_count with _ | n
      · rw [hit, hmc] at hx
        simp at hx
      · simp [validate, hit, hmc]
      · simp [validate, hit, hmc]
      · rw [hit, hmc] at hx
        simp at hx
    rcases hr : removeFirstCtrl (cfg.controllers.filter (fun p => p.1.is_timerable))
        (cfgMaster (masterKeyOf kw) cfg).ctrl with _ | ⟨mp, rest⟩
    · simp [start_action, hv, hr]
    · simp only [start_action, hv, hr]
      exact runPhases_not_configError

/-! ## Partitioning of the configuration by trigger modality -/

theorem split_ctrls_eq (l : List (PoolCtrl × CtrlInfo)) :
    split_ctrls l =
      (l.filter (fun p => decide (routeOf p = Route.hw)),
        l.filter (fun p => decide (routeOf p = Route.sw)),
        l.filter (fun p => decide (routeOf p = Route.zd))) := by
  induction l with
  | nil => rfl
  | cons p ps ih =>
      rcases p with ⟨c, info⟩
      by_cases hz : c.ctrl_type0 = ElementType.ZeroDExpChannel
      · simp [split_ctrls, routeOf, hz, ih, List.filter_cons]
      · rcases hte : info.trigger_element with _ | tg
        · simp [split_ctrls, routeOf, hz, hte, ih, List.filter_cons]
        · by_cases hsw : tg.is_software = true
          · simp [split_ctrls, routeOf, hz, hte, hsw, ih, List.filter_cons]
          · simp [split_ctrls, routeOf, hz, hte, Bool.eq_false_iff.mpr hsw, ih,
              List.filter_cons]

/-- C8: `split_MGConfigurations` partitions the controllers disjointly and
exhaustively — a controller entry lands in the hardware, software or ZeroD
output exactly according to the routing rule (ZeroD channel type first, then
absence or software-ness of the assigned trigger element), and every entry of
the input appears in exactly one output. -/
theorem C8_split_partition (cfg : MGConfig) :
    (∀ p : PoolCtrl × CtrlInfo,
      (p ∈ (split_MGConfigurations cfg).1.controllers ↔
        p ∈ cfg.controllers ∧ routeOf p = Route.hw) ∧
      (p ∈ (split_MGConfigurations cfg).2.1.controllers ↔
        p ∈ cfg.controllers ∧ routeOf p = Route.sw) ∧
      (p ∈ (split_MGConfigurations cfg).2.2.controllers ↔
        p ∈ cfg.controllers ∧ routeOf p = Route.zd)) ∧
    (∀ p ∈ cfg.controllers,
      (p ∈ (split_MGConfigurations cfg).1.controllers ∧
        p ∉ (split_MGConfigurations cfg).2.1.controllers ∧
        p ∉ (split_MGConfigurations cfg).2.2.controllers) ∨
      (p ∉ (split_MGConfigurations cfg).1.controllers ∧
        p ∈ (split_MGConfigurations cfg).2.1.controllers ∧
        p ∉ (split_MGConfigurations cfg).2.2.controllers) ∨
      (p ∉ (split_MGConfigurations cfg).1.controllers ∧
        p ∉ (split_MGConfigurations cfg).2.1.controllers ∧
        p ∈ (split_MGConfigurations cfg).2.2.controllers)) := by
  have hmem : ∀ p : PoolCtrl × CtrlInfo,
      (p ∈ (split_MGConfigurations cfg).1.controllers ↔
        p ∈ cfg.controllers ∧ routeOf p = Route.hw) ∧
      (p ∈ (split_MGConfigurations cfg).2.1.controllers ↔
        p ∈ cfg.controllers ∧ routeOf p = Route.sw) ∧
      (p ∈ (split_MGConfigurations cfg).2.2.controllers ↔
        p ∈ cfg.controllers ∧ routeOf p = Route.zd) := by
    intro p
    have h1 : (split_MGConfigurations cfg).1.controllers =
        (split_ctrls cfg.controllers).1 := rfl
    have h2 : (split_MGConfigurations cfg).2.1.controllers =
        (split_ctrls cfg.controllers).2.1 := rfl
    have h3 : (split_MGConfigurations cfg).2.2.controllers =
        (split_ctrls cfg.controllers).2.2 := rfl
    rw [h1, h2, h3, split_ctrls_eq]
    simp [List.mem_filter]
  refine ⟨hmem, ?_⟩
  intro p hp
  obtain ⟨hhw, hsw, hzd⟩ := hmem p
  rcases hroute : routeOf p with _ | _ | _
  · exact Or.inl ⟨hhw.mpr ⟨hp, hroute⟩,
      fun hc => Route.noConfusion ((hsw.mp hc).2.symm.trans hroute),
      fun hc => Route.noConfusion ((hzd.mp hc).2.symm.trans hroute)⟩
  · exact Or.inr (Or.inl
      ⟨fun hc => Route.noConfusion ((hhw.mp hc).2.symm.trans hroute),
        hsw.mpr ⟨hp, hroute⟩,
        fun hc => Route.noConfusion ((hzd.mp hc).2.symm.trans hroute)⟩)
  · exact Or.inr (Or.inr
      ⟨fun hc => Route.noConfusion ((hhw.mp hc).2.symm.trans hroute),
        fun hc => Route.noConfusion ((hsw.mp hc).2.symm.trans hroute),
        hzd.mpr ⟨hp, hroute⟩⟩)

/-! ## The debounce gate -/

theorem acq_runState_append (s : AcqState) (l1 l2 : List SysEv) :
    acq_runState s (l1 ++ l2) = acq_runState (acq_runState s l1) l2 := by
  induction l1 generalizing s with
  | nil => rfl
  | cons e es ih =>
      simp only [List.cons_append, acq_runState]
      exact ih _

theorem runCT_requires_idle {s : AcqState} {e : SysEv} {i : Int}
    (h : Dispatch.run_ct_continuous i ∈ (acq_step s e).2) : s.sw_busy = false := by
  cases e with
  | trig t id =>
      cases t with
      | Active =>
          by_cases hc : s.sw_config = true
          · by_cases hbusy : s.sw_busy = true
            · simp [acq_step, event_received, hc, hbusy] at h
            · exact Bool.eq_false_iff.mpr hbusy
          · by_cases hz : s.zd_config = true
            · by_cases hzb : s.zd_busy = true
              · simp [acq_step, event_received, Bool.eq_false_iff.mpr hc, hz, hzb] at h
              · simp [acq_step, event_received, Bool.eq_false_iff.mpr hc, hz,
                  Bool.eq_false_iff.mpr hzb, set_0d_acq_busy] at h
            · simp [acq_step, event_received, Bool.eq_false_iff.mpr hc,
                Bool.eq_false_iff.mpr hz] at h
      | Passive =>
          by_cases hp : (s.zd_config && s.zd_busy) = true <;>
            simp [acq_step, event_received, hp] at h
  | ctDone r => simp [acq_step] at h
  | zdDone r => simp [acq_step] at h

theorem runCT_sets_busy {s : AcqState} {e : SysEv} {i : Int}
    (h : Dispatch.run_ct_continuous i ∈ (acq_step s e).2) :
    (acq_step s e).1.sw_busy = true := by
  cases e with
  | trig t id =>
      cases t with
      | Active =>
          by_cases hc : s.sw_config = true
          · by_cases hbusy : s.sw_busy = true
            · simp [acq_step, event_received, hc, hbusy] at h
            · by_cases hz : s.zd_config = true
              · by_cases hzb : s.zd_busy = true
                · simp [acq_step, event_received, hc, Bool.eq_false_iff.mpr hbusy, hz,
                    hzb, set_sw_acq_busy]
                · simp [acq_step, event_received, hc, Bool.eq_false_iff.mpr hbusy, hz,
                    hzb, set_sw_acq_busy, set_0d_acq_busy]
              · simp [acq_step, event_received, hc, Bool.eq_false_iff.mpr hbusy,
                  Bool.eq_false_iff.mpr hz, set_sw_acq_busy]
          · by_cases hz : s.zd_config = true
            · by_cases hzb : s.zd_busy = true
              · simp [acq_step, event_received, Bool.eq_false_iff.mpr hc, hz, hzb] at h
              · simp [acq_step, event_received, Bool.eq_false_iff.mpr hc, hz,
                  Bool.eq_false_iff.mpr hzb, set_0d_acq_busy] at h
            · simp [acq_step, event_received, Bool.eq_false_iff.mpr hc,
                Bool.eq_false_iff.mpr hz] at h
      | Passive =>
          by_cases hp : (s.zd_config && s.zd_busy) = true <;>
            simp [acq_step, event_received, hp] at h
  | ctDone r => simp [acq_step] at h
  | zdDone r => simp [acq_step] at h

theorem step_preserves_sw_busy {s : AcqState} {e : SysEv} (hb : s.sw_busy = true)
    (hne : ∀ r, e ≠ SysEv.ctDone r) : (acq_step s e).1.sw_busy = true := by
  cases e with
  | trig t id =>
      cases t with
      | Active =>
          by_cases hc : s.sw_config = true
          · simp [acq_step, event_received, hc, hb]
          · by_cases hz : s.zd_config = true
            · by_cases hzb : s.zd_busy = true
              · simp [acq_step, event_received, Bool.eq_false_iff.mpr hc, hz, hzb, hb]
              · simp [acq_step, event_received, Bool.eq_false_iff.mpr hc, hz,
                  Bool.eq_false_iff.mpr hzb, set_0d_acq_busy, hb]
            · simp [acq_step, event_received, Bool.eq_false_iff.mpr hc,
                Bool.eq_false_iff.mpr hz, hb]
      | Passive =>
          by_cases hp : (s.zd_config && s.zd_busy) = true <;>
            simp [acq_step, event_received, hp, hb]
  | ctDone r => exact absurd rfl (hne r)
  | zdDone r =>
      cases r <;>
        simp [acq_step, zdCompletion, _run_zerod_acquisition, tryExceptLogFinallyReturn,
          set_0d_acq_busy, hb]

theorem sw_busy_persists : ∀ {evs : List SysEv} {s : AcqState}, s.sw_busy = true →
    (∀ r, SysEv.ctDone r ∉ evs) → (acq_runState s evs).sw_busy = true := by
  intro evs
  induction evs with
  | nil => intro s hb _; exact hb
  | cons e es ih =>
      intro s hb hno
      have hstep : (acq_step s e).1.sw_busy = true :=
        step_preserves_sw_busy hb
          (fun r hr => hno r (hr ▸ List.mem_cons_self e es))
      exact ih hstep (fun r hr => hno r (List.mem_cons_of_mem e hr))

theorem runZD_requires_idle {s : AcqState} {e : SysEv} {i : Int}
    (h : Dispatch.run_zerod_acquisition i ∈ (acq_step s e).2) : s.zd_busy = false := by
  cases e with
  | trig t id =>
      cases t with
      | Active =>
          by_cases hc : s.sw_config = true
          · by_cases hbusy : s.sw_busy = true
            · simp [acq_step, event_received, hc, hbusy] at h
            · by_cases hz : s.zd_config = true
              · by_cases hzb : s.zd_busy = true
                · simp [acq_step, event_received, hc, Bool.eq_false_iff.mpr hbusy, hz,
                    hzb, set_sw_acq_busy] at h
                · exact Bool.eq_false_iff.mpr hzb
              · simp [acq_step, event_received, hc, Bool.eq_false_iff.mpr hbusy,
                  Bool.eq_false_iff.mpr hz, set_sw_acq_busy] at h
          · by_cases hz : s.zd_config = true
            · by_cases hzb : s.zd_busy = true
              · simp [acq_step, event_received, Bool.eq_false_iff.mpr hc, hz, hzb] at h
              · exact Bool.eq_false_iff.mpr hzb
            · simp [acq_step, event_received, Bool.eq_false_iff.mpr hc,
                Bool.eq_false_iff.mpr hz] at h
      | Passive =>
          by_cases hp : (s.zd_config && s.zd_busy) = true <;>
            simp [acq_step, event_received, hp] at h
  | ctDone r => simp [acq_step] at h
  | zdDone r => simp [acq_step] at h

theorem runZD_sets_busy {s : AcqState} {e : SysEv} {i : Int}
    (h : Dispatch.run_zerod_acquisition i ∈ (acq_step s e).2) :
    (acq_step s e).1.zd_busy = true := by
  cases e with
  | trig t id =>
      cases t with
      | Active =>
          by_cases hc : s.sw_config = true
          · by_cases hbusy : s.sw_busy = true
            · simp [acq_step, event_received, hc, hbusy] at h
            · by_cases hz : s.zd_config = true
              · by_cases hzb : s.zd_busy = true
                · simp [acq_step, event_received, hc, Bool.eq_false_iff.mpr hbusy, hz,
                    hzb, set_sw_acq_busy] at h
                · simp [acq_step, event_received, hc, Bool.eq_false_iff.mpr hbusy, hz,
                    hzb, set_sw_acq_busy, set_0d_acq_busy]
              · simp [acq_step, event_received, hc, Bool.eq_false_iff.mpr hbusy,
                  Bool.eq_false_iff.mpr hz, set_sw_acq_busy] at h
          · by_cases hz : s.zd_config = true
            · by_cases hzb : s.zd_busy = true
              · simp [acq_step, event_received, Bool.eq_false_iff.mpr hc, hz, hzb] at h
              · simp [acq_step, event_received, Bool.eq_false_iff.mpr hc, hz,
                  Bool.eq_false_iff.mpr hzb, set_0d_acq_busy]
            · simp [acq_step, event_received, Bool.eq_false_iff.mpr hc,
                Bool.eq_false_iff.mpr hz] at h
      | Passive =>
          by_cases hp : (s.zd_config && s.zd_busy) = true <;>
            simp [acq_step, event_received, hp] at h
  | ctDone r => simp [acq_step] at h
  | zdDone r => simp [acq_step] at h

theorem step_preserves_zd_busy {s : AcqState} {e : SysEv} (hb : s.zd_busy = true)
    (hne : ∀ r, e ≠ SysEv.zdDone r) : (acq_step s e).1.zd_busy = true := by
  cases e with
  | trig t id =>
      cases t with
      | Active =>
          by_cases hc : s.sw_config = true
          · by_cases hbusy : s.sw_busy = true
            · simp [acq_step, event_received, hc, hbusy, hb]
            · by_cases hz : s.zd_config = true
              · simp [acq_step, event_received, hc, Bool.eq_false_iff.mpr hbusy, hz,
                  set_sw_acq_busy, hb]
              · simp [acq_step, event_received, hc, Bool.eq_false_iff.mpr hbusy,
                  Bool.eq_false_iff.mpr hz, set_sw_acq_busy, hb]
          · by_cases hz : s.zd_config = true
            · simp [acq_step, event_received, Bool.eq_false_iff.mpr hc, hz, hb]
            · simp [acq_step, event_received, Bool.eq_false_iff.mpr hc,
                Bool.eq_false_iff.mpr hz, hb]
      | Passive =>
          simp only [acq_step, event_received]
          split <;> exact hb
  | ctDone r =>
      cases r <;>
        simp [acq_step, ctCompletion, _run_ct_continuous, tryExceptLogFinallyReturn,
          set_sw_acq_busy, hb]
  | zdDone r => exact absurd rfl (hne r)

theorem zd_busy_persists : ∀ {evs : List SysEv} {s : AcqState}, s.zd_busy = true →
    (∀ r, SysEv.zdDone r ∉ evs) → (acq_runState s evs).zd_busy = true := by
  intro evs
  induction evs with
  | nil => intro s hb _; exact hb
  | cons e es ih =>
      intro s hb hno
      have hstep : (acq_step s e).1.zd_busy = true :=
        step_preserves_zd_busy hb
          (fun r hr => hno r (hr ▸ List.mem_cons_self e es))
      exact ih hstep (fun r hr => hno r (List.mem_cons_of_mem e hr))

/-- C5: a debounced sub-acquisition (software continuous-count or ZeroD)
never has two in-flight cycles: once a cycle is dispatched, a second dispatch
of the same kind can only occur after the corresponding completion callback
event has cleared the busy flag — a trigger arriving while busy produces no
dispatch at all. -/
theorem C5_debounce_gate (s : AcqState) (evs1 evs2 : List SysEv) (e1 e2 : SysEv)
    (i1 i2 : Int) :
    (Dispatch.run_ct_continuous i1 ∈ (acq_step (acq_runState s evs1) e1).2 →
      Dispatch.run_ct_continuous i2 ∈
        (acq_step (acq_runState s (evs1 ++ e1 :: evs2)) e2).2 →
      ∃ r, SysEv.ctDone r ∈ evs2) ∧
    (Dispatch.run_zerod_acquisition i1 ∈ (acq_step (acq_runState s evs1) e1).2 →
      Dispatch.run_zerod_acquisition i2 ∈
        (acq_step (acq_runState s (evs1 ++ e1 :: evs2)) e2).2 →
      ∃ r, SysEv.zdDone r ∈ evs2) := by
  have hmid : acq_runState s (evs1 ++ e1 :: evs2) =
      acq_runState (acq_step (acq_runState s evs1) e1).1 evs2 := by
    rw [acq_runState_append]
    rfl
  constructor
  · intro h1 h2
    by_contra hno
    push_neg at hno
    have hb1 := runCT_sets_busy h1
    have hb2 := sw_busy_persists hb1 hno
    rw [hmid] at h2
    have hidle := runCT_requires_idle h2
    rw [hb2] at hidle
    cases hidle
  · intro h1 h2
    by_contra hno
    push_neg at hno
    have hb1 := runZD_sets_busy h1
    have hb2 := zd_busy_persists hb1 hno
    rw [hmid] at h2
    have hidle := runZD_requires_idle h2
    rw [hb2] at hidle
    cases hidle

/-- C6: the dispatch wrappers `_run_ct_continuous` and
`_run_zerod_acquisition` return `False` on every outcome of the wrapped run,
including when it raises — the exception never propagates — so the worker
pool's completion callback always clears the corresponding busy flag. -/
theorem C6_wrapper_always_clears_busy (r : PyOutcome Unit) (s : AcqState) :
    _run_ct_continuous r = .ok false ∧ _run_zerod_acquisition r = .ok false ∧
      (ctCompletion s r).sw_busy = false ∧ (zdCompletion s r).zd_busy = false := by
  cases r <;>
    simp [_run_ct_continuous, _run_zerod_acquisition, tryExceptLogFinallyReturn,
      ctCompletion, zdCompletion, set_sw_acq_busy, set_0d_acq_busy]

/-- C10: when a software configuration is cached and the software
sub-acquisition is busy, an `Active` event returns immediately after the
logged skip — the state is unchanged and nothing is dispatched, in
particular no ZeroD cycle even if a ZeroD configuration is cached and idle. -/
theorem C10_sw_busy_skips_zerod (s : AcqState) (eid : Int)
    (h1 : s.sw_config = true) (h2 : s.sw_busy = true) :
    event_received s .Active eid = (s, []) := by
  simp [event_received, h1, h2]

/-! ## Software single-shot final publication (C7) -/

/-- C7: in the final convergence of the software acquisition loop, every
acquirable whose value was read gets its payload published wrapped in a
one-element list, with index the one-element list of the trigger-supplied
sequence index, at full propagation. -/
theorem C7_sw_final_publication (index : Int) (values : List (Nat × ℚ))
    (states : List (Nat × Nat)) (acq : Nat) (v : ℚ)
    (hv : alookup values acq = some v) (hs : acq ∈ states.map Prod.fst) :
    PubEvent.put_value acq [v] [index] 2 ∈ sw_convergence index values states := by
  induction states with
  | nil => cases hs
  | cons st rest ih =>
      rcases st with ⟨a0, s0⟩
      simp only [List.map_cons, List.mem_cons] at hs
      rcases hs with heq | hmem
      · subst heq
        unfold sw_convergence
        rw [hv]
        exact List.mem_cons_of_mem _
          (List.mem_append_left _ (List.mem_cons_self _ _))
      · exact List.mem_cons_of_mem _
          (List.mem_append_right _
            (List.mem_cons_of_mem _ (List.mem_cons_of_mem _ (ih hmem))))

/-! ## Concrete instances

A small measurement group used to exercise the theorems on concrete data:
controller 0 with channels on axes 1 and 2 (the timer on axis 1 listed
first), and for the two-controller scenarios an additional controller 5. -/

def behW : Nat → CtrlBehavior := fun _ =>
  { acceptsRepetitions := true
    preLoadOne := fun _ _ _ => true
    preStartOne := fun _ _ => true }

/-- A controller behavior whose `PreStartOne` rejects axis 2. -/
def behF : Nat → CtrlBehavior := fun _ =>
  { acceptsRepetitions := true
    preLoadOne := fun _ _ _ => true
    preStartOne := fun ax _ => decide (ax ≠ 2) }

def e1W : PElem := ⟨1, 1, 0⟩
def e2W : PElem := ⟨2, 2, 0⟩
def e3W : PElem := ⟨3, 1, 5⟩

def c0W : PoolCtrl := ⟨0, .CTExpChannel, true⟩
def c5W : PoolCtrl := ⟨5, .CTExpChannel, true⟩

def i0W : CtrlInfo := ⟨[(e1W, ⟨true⟩), (e2W, ⟨true⟩)], e1W, e2W, none⟩
def i5W : CtrlInfo := ⟨[(e3W, ⟨true⟩)], e3W, e3W, none⟩

def cfgW : MGConfig := ⟨[(c0W, i0W)], e1W, e2W⟩
def cfg4W : MGConfig := ⟨[(c0W, i0W), (c5W, i5W)], e1W, e2W⟩

def kwW : StartKwargs := ⟨some (.scalar 1), none, some 1⟩

def mvW : MasterValue := .time (.scalar 1)

/-- The trace of the successful base `start_action` on `cfgW`. -/
def trW : List CtrlCall :=
  [.PreLoadAll 0, .PreLoadOne 0 1 mvW, .LoadOne 0 1 mvW, .LoadAll 0,
   .PreStartAll 0,
   .PreStartOne 0 2 mvW, .StartOne 0 2 mvW, .PreStartOne 0 1 mvW, .StartOne 0 1 mvW,
   .StartAll 0]

/-- The trace of the successful base `start_action` on the two-controller
configuration: controller 5 fully sequenced before the master controller 0. -/
def tr4W : List CtrlCall :=
  [.PreLoadAll 5, .PreLoadOne 5 1 mvW, .LoadOne 5 1 mvW, .LoadAll 5,
   .PreLoadAll 0, .PreLoadOne 0 1 mvW, .LoadOne 0 1 mvW, .LoadAll 0,
   .PreStartAll 5, .PreStartAll 0,
   .PreStartOne 5 1 mvW, .StartOne 5 1 mvW,
   .PreStartOne 0 2 mvW, .StartOne 0 2 mvW, .PreStartOne 0 1 mvW, .StartOne 0 1 mvW,
   .StartAll 5, .StartAll 0]

/-- The trace of the base `start_action` under `behF`: it stops at the
rejected `PreStartOne` of axis 2. -/
def trF : List CtrlCall :=
  [.PreLoadAll 0, .PreLoadOne 0 1 mvW, .LoadOne 0 1 mvW, .LoadAll 0,
   .PreStartAll 0, .PreStartOne 0 2 mvW]

/-- Counterexample to C2 as stated: in the hardware-continuous variant
(`PoolContHWAcquisition.start_action`) the channels are started in
configuration order without reordering, so with the master channel (axis 1)
listed first its `PreStartOne`/`StartOne` precede the sibling channel's
(axis 2) — the run succeeds and `masterAfterSiblings` is violated. -/
theorem C2_contHW_counterexample :
    (contHW_start_action behW kwW cfgW).2 = none ∧
    masterAfterSiblings c0W.id (selectMaster (masterKeyOf kwW) i0W).axis
      (contHW_start_action behW kwW cfgW).1 = false := by
  constructor <;> decide

/-- Witness for the amended C2 on a concrete configuration. -/
theorem C2_witness :
    masterAfterSiblings c0W.id (selectMaster (masterKeyOf kwW) i0W).axis trW = true :=
  @C2_base_master_channel_last behW kwW cfgW trW (by decide) (by decide) (by decide)
    (c0W, i0W) (by decide)

/-- Witness for C3 at concrete inputs: both-missing raises the configuration
error with no controller call, and the valid keyword set never produces it. -/
theorem C3_witness :
    start_action behW ⟨none, none, none⟩ cfgW = ([], some .configError) ∧
      (start_action behW kwW cfgW).2 ≠ some .configError :=
  ⟨(C3_validation_gate behW ⟨none, none, none⟩ cfgW).1 (Or.inl ⟨rfl, rfl⟩),
    (C3_validation_gate behW kwW cfgW).2 (by decide)⟩

/-- Witness for C4 on the two-controller configuration. -/
theorem C4_witness :
    masterCtrlLastForKind CallKind.startOne (cfgMaster (masterKeyOf kwW) cfg4W).ctrl
      tr4W = true :=
  @C4_master_controller_last behW kwW cfg4W tr4W (by decide) (by decide)
    CallKind.startOne (by simp)

def sIdle : AcqState := ⟨true, true, false, false⟩
def sBusy : AcqState := ⟨true, true, true, false⟩

def evs2W : List SysEv := [.ctDone (.ok ()), .zdDone (.ok ())]

/-- Witness for C5: two consecutive dispatches of each kind force a
completion event in between. -/
theorem C5_witness :
    (∃ r, SysEv.ctDone r ∈ evs2W) ∧ (∃ r, SysEv.zdDone r ∈ evs2W) :=
  ⟨(C5_debounce_gate sIdle [] evs2W (.trig .Active 1) (.trig .Active 2) 1 2).1
      (by decide) (by decide),
    (C5_debounce_gate sIdle [] evs2W (.trig .Active 1) (.trig .Active 2) 1 2).2
      (by decide) (by decide)⟩

/-- Witness for C7 at trigger index 7. -/
theorem C7_witness :
    PubEvent.put_value 4 [(5 : ℚ)] [(7 : Int)] 2 ∈
      sw_convergence 7 [(4, (5 : ℚ))] [(4, 0)] :=
  C7_sw_final_publication 7 [(4, (5 : ℚ))] [(4, 0)] 4 5 (by decide) (by decide)

/-- Witness for C8 at a concrete controller entry (software-routed). -/
theorem C8_witness :
    ((c0W, i0W) ∈ (split_MGConfigurations cfgW).1.controllers ∧
      (c0W, i0W) ∉ (split_MGConfigurations cfgW).2.1.controllers ∧
      (c0W, i0W) ∉ (split_MGConfigurations cfgW).2.2.controllers) ∨
    ((c0W, i0W) ∉ (split_MGConfigurations cfgW).1.controllers ∧
      (c0W, i0W) ∈ (split_MGConfigurations cfgW).2.1.controllers ∧
      (c0W, i0W) ∉ (split_MGConfigurations cfgW).2.2.controllers) ∨
    ((c0W, i0W) ∉ (split_MGConfigurations cfgW).1.controllers ∧
      (c0W, i0W) ∉ (split_MGConfigurations cfgW).2.1.controllers ∧
      (c0W, i0W) ∈ (split_MGConfigurations cfgW).2.2.controllers) :=
  (C8_split_partition cfgW).2 (c0W, i0W) (by decide)

/-- Witness for C9: under `behF` the run stops at `PreStartOne(0, 2)`,
`StartOne(0, 2)` is never issued and the protocol error propagates. -/
theorem C9_witness :
    CtrlCall.StartOne 0 2 (masterValueOf kwW) ∉ trF ∧
      (some (.preStartOneFalse 0 2) : Option StartError) =
        some (.preStartOneFalse 0 2) :=
  @C9_prestartone_gate behF kwW cfgW trF (some (.preStartOneFalse 0 2)) 0 2
    (by decide) (by decide) (by decide)

/-- Witness for C10: a busy software acquisition with an idle, cached ZeroD
acquisition drops the `Active` event entirely. -/
theorem C10_witness : event_received sBusy .Active 7 = (sBusy, []) :=
  C10_sw_busy_skips_zerod sBusy 7 rfl rfl

end Sardana
